import Mathlib

/-!
# Octree2011: frustum classifier and octree

A shallow embedding of `src/Octree.cpp`.  An `Octree*` is either `NULL` or a node;
`iObject*` values are records compared by equality.  `MINIMUM_NODE_RADIUS`, which the
excerpt uses but does not define, is a parameter of `Add`.

The C++ `float` is embedded twice.  The first set of definitions reads it as exact rational
arithmetic (`ℚ`); the properties proved of it are properties of the code in exact
arithmetic.  The second set (`containsNodeR`, `checkObjectWithinNodeR`, `growR`, `AddR`,
`calcVisibilityR`) rounds after every `float` operation, with `fl32` the rounding of
binary32; it is used to show where rounding makes the code leave the exact behaviour.
-/

namespace Octree2011

/-- The engine's 3-component `Vector`. -/
structure Vector where
  x : ℚ
  y : ℚ
  z : ℚ
deriving DecidableEq

namespace Vector

/-- Component-wise sum, `a + b`. -/
def add (a b : Vector) : Vector := ⟨a.x + b.x, a.y + b.y, a.z + b.z⟩

/-- Component-wise difference, `a - b`. -/
def sub (a b : Vector) : Vector := ⟨a.x - b.x, a.y - b.y, a.z - b.z⟩

/-- Scaling by a scalar, `v * s` and `s * v`. -/
def scale (v : Vector) (s : ℚ) : Vector := ⟨v.x * s, v.y * s, v.z * s⟩

end Vector

/-- The dot product `dot(a, b)`. -/
def dot (a b : Vector) : ℚ := a.x * b.x + a.y * b.y + a.z * b.z

/-- An `iObject` as the octree sees it: its identity (`tag`), `position()` and `getRadius()`. -/
structure iObject where
  tag : Nat
  position : Vector
  getRadius : ℚ
deriving DecidableEq

/-- A frustum plane: normal `n` and offset `d`. -/
structure Plane where
  n : Vector
  d : ℚ

/-- The viewing frustum: `plane[0..5]`. -/
structure ViewingFrustum where
  plane : Fin 6 → Plane

/-- The table `cubeCorners[]` (lines 70-80 and 398-408, the two copies are identical). -/
def cubeCorners : Fin 8 → Vector
  | 0 => ⟨-1, -1, -1⟩
  | 1 => ⟨-1, -1, 1⟩
  | 2 => ⟨-1, 1, -1⟩
  | 3 => ⟨-1, 1, 1⟩
  | 4 => ⟨1, -1, -1⟩
  | 5 => ⟨1, -1, 1⟩
  | 6 => ⟨1, 1, -1⟩
  | 7 => ⟨1, 1, 1⟩

/-- The three statements `if (bx) cornerIndex |= 4; if (by) cornerIndex |= 2;
if (bz) cornerIndex |= 1;` starting from `cornerIndex = 0`. -/
def cornerBits (bx bY bz : Bool) : Fin 8 :=
  ⟨((0 ||| (if bx then 4 else 0)) ||| (if bY then 2 else 0)) ||| (if bz then 1 else 0), by
    cases bx <;> cases bY <;> cases bz <;> decide⟩

/-- The corner index computed with `>= 0` tests (lines 25-27, 258-260, 315-317). -/
def cornerIndexGe (v : Vector) : Fin 8 :=
  cornerBits (decide (v.x ≥ 0)) (decide (v.y ≥ 0)) (decide (v.z ≥ 0))

/-- The corner index computed with `> 0` tests (lines 336-338). -/
def cornerIndexGt (v : Vector) : Fin 8 :=
  cornerBits (decide (v.x > 0)) (decide (v.y > 0)) (decide (v.z > 0))

namespace ViewingFrustum

/-- One pass of the loop body of `containsNode` (lines 21-45) for plane `i`, on the loop
state `(inside, partiallyInside)`.  The loop condition `i < 6 && inside` makes the body a
no-op once `inside` is false. -/
def containsNodeStep (f : ViewingFrustum) (pos : Vector) (radius : ℚ)
    (st : Bool × Bool) (i : Fin 6) : Bool × Bool :=
  if st.1 then
    let cornerIndex := cornerIndexGe (f.plane i).n
    let closestCorner := ((cubeCorners cornerIndex).scale radius).add pos
    if dot closestCorner (f.plane i).n + (f.plane i).d + radius < 0 then
      (false, st.2)
    else if !st.2 then
      let furthestCorner := ((cubeCorners cornerIndex).scale (radius * -1)).add pos
      if dot furthestCorner (f.plane i).n + (f.plane i).d + radius < 0 then
        (st.1, true)
      else st
    else st
  else st

/-- The method `ViewingFrustum::containsNode` (lines 14-67), in exact arithmetic: 0 = not at
all, 1 = partially, 2 = fully; `containsNodeR` is the same code with rounded arithmetic. -/
def containsNode (f : ViewingFrustum) (pos : Vector) (radius : ℚ) : Nat :=
  let st := (List.finRange 6).foldl (containsNodeStep f pos radius) (true, false)
  if st.1 && !st.2 then 2
  else if st.1 && st.2 then 1
  else 0

end ViewingFrustum

/-- A value of type `Octree*`: `NULL`, or a node with its `midPoint`, `radius`, the eight
child pointers `nodes[8]`, the list `objectsAtNodeLevel` and the counter `numNodes`. -/
inductive Octree where
  | null : Octree
  | node (midPoint : Vector) (radius : ℚ) (nodes : Fin 8 → Octree)
      (objectsAtNodeLevel : List iObject) (numNodes : Int) : Octree

namespace Octree

/-- The array of eight `NULL` pointers. -/
def noNodes : Fin 8 → Octree := fun _ => null

/-- The constructor `Octree::Octree()` (lines 82-90).  The default-constructed `midPoint` is taken to be
the origin; it is overwritten before it is read. -/
def empty : Octree := node ⟨0, 0, 0⟩ 0 noNodes [] 0

/-- The constructor `Octree::Octree(Vector mid, float rad)` (lines 104-119), without the debug box. -/
def mkNode (mid : Vector) (rad : ℚ) : Octree := node mid rad noNodes [] 0

/-- The method `Octree::checkObjectWithinNode` (lines 200-214), in exact arithmetic;
`checkObjectWithinNodeR` is the same code with rounded sums and differences. -/
def checkObjectWithinNode (midPoint : Vector) (radius : ℚ) (checkPosition : Vector)
    (checkRadius : ℚ) : Bool :=
  let toReturn := true
  let toReturn := if toReturn && decide (checkPosition.x - checkRadius ≤ midPoint.x - radius)
    then false else toReturn
  let toReturn := if toReturn && decide (checkPosition.x + checkRadius ≥ midPoint.x + radius)
    then false else toReturn
  let toReturn := if toReturn && decide (checkPosition.y - checkRadius ≤ midPoint.y - radius)
    then false else toReturn
  let toReturn := if toReturn && decide (checkPosition.y + checkRadius ≥ midPoint.y + radius)
    then false else toReturn
  let toReturn := if toReturn && decide (checkPosition.z - checkRadius ≤ midPoint.z - radius)
    then false else toReturn
  let toReturn := if toReturn && decide (checkPosition.z + checkRadius ≥ midPoint.z + radius)
    then false else toReturn
  toReturn

/-- The `radius` after lines 223-231 of `Add`. -/
def initRadius (radius : ℚ) (toAdd : iObject) : ℚ :=
  if radius = 0 then
    (if toAdd.getRadius = 0 then toAdd.getRadius + 1 else toAdd.getRadius)
  else radius

/-- The `midPoint` after lines 223-231 of `Add`. -/
def initMidPoint (midPoint : Vector) (radius : ℚ) (toAdd : iObject) : Vector :=
  if radius = 0 then toAdd.position else midPoint

/-- The root-growth step of `Add` (lines 308-341), in exact arithmetic: the node
`(midPoint, radius, nodes, objectsAtNodeLevel, numNodes)` is copied, reset, moved and
doubled, and the copy is filed as its only child; `growR` is the same code with rounded
arithmetic. -/
def grow (midPoint : Vector) (radius : ℚ) (nodes : Fin 8 → Octree)
    (objectsAtNodeLevel : List iObject) (numNodes : Int) (checkPosition : Vector) : Octree :=
  let nodeCopy := node midPoint radius nodes objectsAtNodeLevel numNodes
  let checkSector := checkPosition.sub midPoint
  let cornerIndex := cornerIndexGe checkSector
  let nodes1 : Fin 8 → Octree := noNodes
  let midPoint1 := ((cubeCorners cornerIndex).scale radius).add midPoint
  let radius1 := radius * 2
  let numNodes1 : Int := 0
  let cornerIndex1 := cornerIndexGt (checkSector.scale (-1))
  node midPoint1 radius1 (Function.update nodes1 cornerIndex1 nodeCopy) [] (numNodes1 + 1)

/-- The method `Octree::Add(const iObject*, bool)` (lines 221-347) run on the node `this`, with
`MINIMUM_NODE_RADIUS` as a parameter.  The result is the returned flag and the node after
the call.  The recursion of the C++ is not structural, so the model counts calls: `none`
means that `fuel` nested calls were not enough.  `Add` is never called through a `NULL`
pointer; the model gives `none` there. -/
def Add (MINIMUM_NODE_RADIUS : ℚ) : Nat → Octree → iObject → Bool → Option (Bool × Octree)
  | 0, _, _, _ => none
  | _ + 1, null, _, _ => none
  | fuel + 1, node midPoint0 radius0 nodes objectsAtNodeLevel numNodes, toAdd,
      isTopLevelNode =>
    let radius := initRadius radius0 toAdd
    let midPoint := initMidPoint midPoint0 radius0 toAdd
    let checkRadius := toAdd.getRadius
    let checkPosition := toAdd.position
    let isInNode := checkObjectWithinNode midPoint radius checkPosition checkRadius
    if isInNode then
      let checkSector := checkPosition.sub midPoint
      let cornerIndex := cornerIndexGe checkSector
      match nodes cornerIndex with
      | null =>
        let newRadius := radius / 2
        if newRadius < MINIMUM_NODE_RADIUS then
          -- dontGoSmaller
          some (true, node midPoint radius nodes (objectsAtNodeLevel ++ [toAdd]) numNodes)
        else
          let newMidPoint := ((cubeCorners cornerIndex).scale newRadius).add midPoint
          match Add MINIMUM_NODE_RADIUS fuel (mkNode newMidPoint newRadius) toAdd false with
          | none => none
          | some (true, child) =>
            some (true, node midPoint radius (Function.update nodes cornerIndex child)
              objectsAtNodeLevel (numNodes + 1))
          | some (false, _) =>
            -- justAdded: the new child is deleted again
            some (true, node midPoint radius (Function.update nodes cornerIndex null)
              (objectsAtNodeLevel ++ [toAdd]) (numNodes + 1 - 1))
      | child0 =>
        match Add MINIMUM_NODE_RADIUS fuel child0 toAdd false with
        | none => none
        | some (true, child) =>
          some (true, node midPoint radius (Function.update nodes cornerIndex child)
            objectsAtNodeLevel numNodes)
        | some (false, child) =>
          some (true, node midPoint radius (Function.update nodes cornerIndex child)
            (objectsAtNodeLevel ++ [toAdd]) numNodes)
    else if !isInNode && !isTopLevelNode then
      some (false, node midPoint radius nodes objectsAtNodeLevel numNodes)
    else
      Add MINIMUM_NODE_RADIUS fuel
        (grow midPoint radius nodes objectsAtNodeLevel numNodes checkPosition) toAdd true

/-- The public `Octree::Add(const iObject*)` (lines 216-219). -/
def AddTop (MINIMUM_NODE_RADIUS : ℚ) (fuel : Nat) (t : Octree) (toAdd : iObject) :
    Option Octree :=
  (Add MINIMUM_NODE_RADIUS fuel t toAdd true).map Prod.snd

/-- A sequence of public `Add` calls, one per object of the list, in order. -/
def addAll (MINIMUM_NODE_RADIUS : ℚ) (fuel : Nat) : List iObject → Octree → Option Octree
  | [], t => some t
  | o :: os, t =>
    match AddTop MINIMUM_NODE_RADIUS fuel t o with
    | none => none
    | some t1 => addAll MINIMUM_NODE_RADIUS fuel os t1

/-- The method `Octree::isEmpty` (lines 388-395). -/
def isEmpty : Octree → Bool
  | null => false
  | node _ _ _ objectsAtNodeLevel numNodes =>
    if (!decide (objectsAtNodeLevel.length ≠ 0)) && (!decide (numNodes ≠ 0)) then true
    else false

/-- The read `nodes[cornerIndex]` of the eight-slot array: `none` when the index is past
the end of the array. -/
def nodeAt (nodes : Fin 8 → Octree) (cornerIndex : Nat) : Option (Fin 8 × Octree) :=
  if h : cornerIndex < 8 then some (⟨cornerIndex, h⟩, nodes ⟨cornerIndex, h⟩) else none

/-- The child loop of `Remove` (lines 365-380), from `cornerIndex` on, with at most `k`
passes left (the index grows at every pass, so eight passes always reach the end).
`sub i` is the outcome of `nodes[i]->Remove(toRemove)`.  The result is `none` when the
loop reads `nodes[cornerIndex]` past the end of the array or when a nested call did. -/
def removeLoop (sub : Fin 8 → Option (Bool × Octree)) :
    Nat → Nat → (Fin 8 → Octree) → Int → Bool → Option (Bool × (Fin 8 → Octree) × Int)
  | 0, _, nodes, numNodes, didRemove => some (didRemove, nodes, numNodes)
  | k + 1, cornerIndex, nodes, numNodes, didRemove =>
    if h : cornerIndex < 8 then
      match nodes ⟨cornerIndex, h⟩ with
      | null => removeLoop sub k (cornerIndex + 1) nodes numNodes didRemove
      | _ =>
        match sub ⟨cornerIndex, h⟩ with
        | none => none
        | some (removed, child) =>
          let nodes1 := Function.update nodes ⟨cornerIndex, h⟩ child
          let cornerIndex1 := if removed then 8 else cornerIndex
          let didRemove1 := if removed then true else didRemove
          match nodeAt nodes1 cornerIndex1 with
          | none => none
          | some (slot, c) =>
            if isEmpty c then
              removeLoop sub k (cornerIndex1 + 1) (Function.update nodes1 slot null)
                (numNodes - 1) didRemove1
            else
              removeLoop sub k (cornerIndex1 + 1) nodes1 numNodes didRemove1
    else some (didRemove, nodes, numNodes)

/-- The method `Octree::Remove` (lines 349-386) run on the node `this`: the returned flag and the node
after the call, or `none` when the call reads `nodes[8]`.  `list::remove` erases every
element equal to `toRemove`. -/
def Remove : Octree → iObject → Option (Bool × Octree)
  | null, _ => none
  | node midPoint radius nodes objectsAtNodeLevel numNodes, toRemove =>
    let cSize := objectsAtNodeLevel.length
    let objects1 :=
      if cSize ≠ 0 then objectsAtNodeLevel.filter (fun o => decide (o ≠ toRemove))
      else objectsAtNodeLevel
    if cSize = objects1.length then
      match removeLoop (fun i => Remove (nodes i) toRemove) 8 0 nodes numNodes false with
      | none => none
      | some (didRemove, nodes1, numNodes1) =>
        some (didRemove, node midPoint radius nodes1 objects1 numNodes1)
    else
      some (true, node midPoint radius nodes objects1 numNodes)

/-- The method `Octree::calcVisibility(frustum, skipVisibilityChecking, visibleObject)` (lines
137-198): the list `*visibleObject` after the call, given the list before.
`ViewingFrustum::contains`, which the excerpt calls but does not define, is the parameter
`contains`. -/
def calcVisibility (frustum : ViewingFrustum) (contains : iObject → Bool) :
    Octree → Bool → List iObject → List iObject
  | null, _, visibleObject => visibleObject
  | node midPoint radius nodes objectsAtNodeLevel _, skipVisibilityChecking, visibleObject =>
    let contains1 : Nat :=
      if skipVisibilityChecking then 2 else frustum.containsNode midPoint radius
    match contains1 with
    | 0 => visibleObject
    | 1 =>
      (List.finRange 8).foldl
        (fun out cNode => calcVisibility frustum contains (nodes cNode) false out)
        (visibleObject ++ objectsAtNodeLevel.filter contains)
    | 2 =>
      (List.finRange 8).foldl
        (fun out cNode => calcVisibility frustum contains (nodes cNode) true out)
        (visibleObject ++ objectsAtNodeLevel)
    | _ => visibleObject

/-- The objects of a tree in traversal order: a node's own list, then its children from
slot 0 to slot 7. -/
def flatten : Octree → List iObject
  | null => []
  | node _ _ nodes objectsAtNodeLevel _ =>
    objectsAtNodeLevel ++ (List.finRange 8).flatMap (fun i => flatten (nodes i))

/-- The multiset of object references stored over all nodes of a tree. -/
def allObjects : Octree → Multiset iObject
  | null => 0
  | node _ _ nodes objectsAtNodeLevel _ =>
    (objectsAtNodeLevel : Multiset iObject) + Finset.univ.sum (fun i => allObjects (nodes i))

/-- The field `radius` of a node. -/
def radius : Octree → ℚ
  | null => 0
  | node _ r _ _ _ => r

/-- The field `midPoint` of a node. -/
def midPoint : Octree → Vector
  | null => ⟨0, 0, 0⟩
  | node m _ _ _ _ => m

/-- The child pointer `nodes[i]` of a node. -/
def child : Octree → Fin 8 → Octree
  | null, _ => null
  | node _ _ nodes _ _, i => nodes i

/-- The list `objectsAtNodeLevel` of a node. -/
def objects : Octree → List iObject
  | null => []
  | node _ _ _ objs _ => objs

/-- The counter `numNodes` of a node. -/
def count : Octree → Int
  | null => 0
  | node _ _ _ _ n => n

/-- Whether the pointer is `NULL`. -/
def isNull : Octree → Bool
  | null => true
  | node _ _ _ _ _ => false

end Octree

/-! ## Notions used to state the properties -/

/-- The corner sign vector of a plane normal: `+1` on each axis where the component of
the normal is `>= 0`, `-1` otherwise. -/
def cornerSign (n : Vector) : Vector :=
  ⟨if n.x ≥ 0 then 1 else -1, if n.y ≥ 0 then 1 else -1, if n.z ≥ 0 then 1 else -1⟩

/-- The quantity `dot(pos + radius * s_i, n_i) + d_i + radius` of plane `i`. -/
def nearValue (f : ViewingFrustum) (pos : Vector) (radius : ℚ) (i : Fin 6) : ℚ :=
  dot (pos.add ((cornerSign (f.plane i).n).scale radius)) (f.plane i).n
    + (f.plane i).d + radius

/-- The quantity `dot(pos - radius * s_i, n_i) + d_i + radius` of plane `i`. -/
def farValue (f : ViewingFrustum) (pos : Vector) (radius : ℚ) (i : Fin 6) : ℚ :=
  dot (pos.sub ((cornerSign (f.plane i).n).scale radius)) (f.plane i).n
    + (f.plane i).d + radius

/-- Modelled from the spec: `ViewingFrustum::contains(const iObject*)` is called by
`calcVisibility` but is not part of the excerpt.  This is the point test of the plane
definition: the object's position is on the positive side of all six planes,
`dot(p, n) + d >= 0`. -/
def ViewingFrustum.containsObject (f : ViewingFrustum) (o : iObject) : Bool :=
  decide (∀ i : Fin 6, 0 ≤ dot o.position (f.plane i).n + (f.plane i).d)

namespace Octree

/-- The bounding box of an object lies strictly inside the cube `midPoint ± radius` on
every axis. -/
def StrictlyInside (midPoint : Vector) (radius : ℚ) (o : iObject) : Prop :=
  (midPoint.x - radius < o.position.x - o.getRadius ∧
    o.position.x + o.getRadius < midPoint.x + radius) ∧
  (midPoint.y - radius < o.position.y - o.getRadius ∧
    o.position.y + o.getRadius < midPoint.y + radius) ∧
  (midPoint.z - radius < o.position.z - o.getRadius ∧
    o.position.z + o.getRadius < midPoint.z + radius)

/-- The containment invariant: at every node of the tree, every object stored in the
node's list or anywhere below it lies strictly inside the node's cube. -/
def Contained : Octree → Prop
  | null => True
  | node midPoint radius nodes objectsAtNodeLevel numNodes =>
    (∀ o ∈ allObjects (node midPoint radius nodes objectsAtNodeLevel numNodes),
      StrictlyInside midPoint radius o) ∧
    ∀ i, Contained (nodes i)

/-- The child-count invariant, as a check: at every node, `numNodes` is the number of child
slots that are not `NULL`. -/
def countOK : Octree → Bool
  | null => true
  | node _ _ nodes _ numNodes =>
    decide (numNodes = ((Finset.univ.filter (fun i => isNull (nodes i) = false)).card : Int))
      && decide (∀ i, countOK (nodes i) = true)

/-- The state `(nodes, numNodes)` of the child loop satisfies the child-count invariant. -/
def LoopOK (nodes : Fin 8 → Octree) (numNodes : Int) : Prop :=
  numNodes = Finset.univ.sum (fun i => if isNull (nodes i) = false then (1 : Int) else 0) ∧
  ∀ i, countOK (nodes i) = true

/-- A node with no local objects and no children. -/
def hollow : Octree → Bool
  | null => false
  | node _ _ nodes objectsAtNodeLevel _ =>
    objectsAtNodeLevel.isEmpty && decide (∀ i, isNull (nodes i) = true)

/-- No node strictly below the given one is hollow. -/
def noHollowBelow : Octree → Bool
  | null => true
  | node _ _ nodes _ _ =>
    decide (∀ i, hollow (nodes i) = false ∧ noHollowBelow (nodes i) = true)

/-- The octant-geometry relation: every child in slot `k` of a node has half the node's
radius and the centre `midPoint + cubeCorners[k] * (radius / 2)`, at every node. -/
def OctantGeometry : Octree → Prop
  | null => True
  | node midPoint radius nodes _ _ =>
    ∀ k, (nodes k ≠ null →
        Octree.radius (nodes k) = radius / 2 ∧
        Octree.midPoint (nodes k) = ((cubeCorners k).scale (radius / 2)).add midPoint) ∧
      OctantGeometry (nodes k)

/-- Along one axis: the offset `d` of the object from the centre is within `B` or within
half the radius. -/
def AxisNear (B R d : ℚ) : Prop := (-B ≤ d ∧ d ≤ B) ∨ (-(R / 2) ≤ d ∧ d ≤ R / 2)

/-- The object is near the centre `mid` on the three axes. -/
def Near (B R : ℚ) (mid p : Vector) : Prop :=
  AxisNear B R (p.x - mid.x) ∧ AxisNear B R (p.y - mid.y) ∧ AxisNear B R (p.z - mid.z)

end Octree

/-! ## Sample inputs -/

/-- An object at the origin with radius 1. -/
def objA : iObject := ⟨1, ⟨0, 0, 0⟩, 1⟩

/-- An object at `(100, 0, 0)` with radius 1. -/
def objB : iObject := ⟨2, ⟨100, 0, 0⟩, 1⟩

/-- An object at `(-50, -50, -50)` with radius 1. -/
def objC : iObject := ⟨3, ⟨-50, -50, -50⟩, 1⟩

/-- An object at `(1, 1, 1)` with radius 1/2. -/
def objD : iObject := ⟨4, ⟨1, 1, 1⟩, 1 / 2⟩

/-- An object at the origin with radius 0. -/
def objE : iObject := ⟨5, ⟨0, 0, 0⟩, 0⟩

/-- An object at `(1/2, 1/2, 1/2)` with radius 1/10. -/
def objF : iObject := ⟨6, ⟨1 / 2, 1 / 2, 1 / 2⟩, 1 / 10⟩

/-- The three-object scenario. -/
def threeObjects : List iObject := [objA, objB, objC]

/-- A root of radius 4 holding `objA`, whose child 7 holds `objD`; it is the tree that
`Add(objA)` then `Add(objD)` build from the empty tree with `MINIMUM_NODE_RADIUS = 1`, up
to the hollow grandchild. -/
def sampleTree : Octree :=
  Octree.node ⟨-1, -1, -1⟩ 4
    (Function.update Octree.noNodes 7 (Octree.node ⟨1, 1, 1⟩ 2 Octree.noNodes [objD] 0))
    [objA] 1

/-- The point `x` lies in the cube `pos ± radius`: `|x - pos| <= radius` on each axis. -/
def InCube (pos : Vector) (radius : ℚ) (x : Vector) : Prop :=
  (pos.x - radius ≤ x.x ∧ x.x ≤ pos.x + radius) ∧
  (pos.y - radius ≤ x.y ∧ x.y ≤ pos.y + radius) ∧
  (pos.z - radius ≤ x.z ∧ x.z ≤ pos.z + radius)

/-- The point `x` is on the positive side of all six planes: `dot(x, n) + d >= 0`. -/
def InFrustum (f : ViewingFrustum) (x : Vector) : Prop :=
  ∀ i : Fin 6, 0 ≤ dot x (f.plane i).n + (f.plane i).d

/-- A frustum with unit normals: the half-space `x >= 0` cut by the five planes
`x <= 10`, `y >= -10`, `y <= 10`, `z >= -10`, `z <= 10`. -/
def halfFrustum : ViewingFrustum :=
  ⟨fun i =>
    match i with
    | 0 => ⟨⟨1, 0, 0⟩, 0⟩
    | 1 => ⟨⟨-1, 0, 0⟩, 10⟩
    | 2 => ⟨⟨0, 1, 0⟩, 10⟩
    | 3 => ⟨⟨0, -1, 0⟩, 10⟩
    | 4 => ⟨⟨0, 0, 1⟩, 10⟩
    | 5 => ⟨⟨0, 0, -1⟩, 10⟩⟩

/-- A frustum whose six planes all have normal `(0, 0, 0)` and offset `1`: everything is
inside it. -/
def openFrustum : ViewingFrustum := ⟨fun _ => ⟨⟨0, 0, 0⟩, 1⟩⟩

/-- A frustum around the origin: the six planes `x >= -5`, `x <= 5`, `y >= -5`, `y <= 5`,
`z >= -5`, `z <= 5`. -/
def boxFrustum : ViewingFrustum :=
  ⟨fun i =>
    match i with
    | 0 => ⟨⟨1, 0, 0⟩, 5⟩
    | 1 => ⟨⟨-1, 0, 0⟩, 5⟩
    | 2 => ⟨⟨0, 1, 0⟩, 5⟩
    | 3 => ⟨⟨0, -1, 0⟩, 5⟩
    | 4 => ⟨⟨0, 0, 1⟩, 5⟩
    | 5 => ⟨⟨0, 0, -1⟩, 5⟩⟩

/-! ## The same code with rounded arithmetic

The definitions above read `float` as exact rationals.  The definitions below are the same
code with every `float` operation followed by a rounding `rnd`; `fl32` is the rounding of
IEEE-754 binary32 (round to nearest, ties to even).  With `rnd = id` they are the exact
definitions. -/

/-- The position of the leading binary digit of `n`, `floor(log2 n)` for `n > 0`, found in
at most `steps` halvings. -/
def ilog2 : Nat → Nat → Nat
  | 0, _ => 0
  | steps + 1, n => if n < 2 then 0 else ilog2 steps (n / 2) + 1

/-- The rounding of IEEE-754 binary32: the nearest number with a 24-bit significand, ties
to the even significand; below `2^-126` the spacing is that of the subnormals, `2^-149`.
Overflow to infinity is not part of the model (the value is rounded as if the exponent
range were unbounded above). -/
def fl32 (q : ℚ) : ℚ :=
  if q = 0 then 0
  else
    let a : ℚ := |q|
    let e0 : ℤ := (ilog2 a.num.natAbs a.num.natAbs : ℤ) - (ilog2 a.den a.den : ℤ)
    let e1 : ℤ := if a < (2 : ℚ) ^ e0 then e0 - 1 else e0
    let e : ℤ := max e1 (-126)
    let ulp : ℚ := (2 : ℚ) ^ (e - 23)
    let s : ℚ := a / ulp
    let k : ℤ := ⌊s⌋
    let r : ℚ := s - k
    let k1 : ℤ :=
      if r < 1 / 2 then k
      else if 1 / 2 < r then k + 1
      else if k % 2 = 0 then k else k + 1
    (if q < 0 then -1 else 1) * ((k1 : ℚ) * ulp)

namespace Vector

/-- The rounded component-wise sum. -/
def addR (rnd : ℚ → ℚ) (a b : Vector) : Vector :=
  ⟨rnd (a.x + b.x), rnd (a.y + b.y), rnd (a.z + b.z)⟩

/-- The rounded component-wise difference. -/
def subR (rnd : ℚ → ℚ) (a b : Vector) : Vector :=
  ⟨rnd (a.x - b.x), rnd (a.y - b.y), rnd (a.z - b.z)⟩

/-- The rounded scaling by a scalar. -/
def scaleR (rnd : ℚ → ℚ) (v : Vector) (s : ℚ) : Vector :=
  ⟨rnd (v.x * s), rnd (v.y * s), rnd (v.z * s)⟩

end Vector

/-- The rounded dot product, summed from left to right: `(a.x*b.x + a.y*b.y) + a.z*b.z`. -/
def dotR (rnd : ℚ → ℚ) (a b : Vector) : ℚ :=
  rnd (rnd (rnd (a.x * b.x) + rnd (a.y * b.y)) + rnd (a.z * b.z))

namespace ViewingFrustum

/-- The loop body of `containsNode` (lines 21-45) with rounded arithmetic. -/
def containsNodeStepR (rnd : ℚ → ℚ) (f : ViewingFrustum) (pos : Vector) (radius : ℚ)
    (st : Bool × Bool) (i : Fin 6) : Bool × Bool :=
  if st.1 then
    let cornerIndex := cornerIndexGe (f.plane i).n
    let closestCorner := ((cubeCorners cornerIndex).scaleR rnd radius).addR rnd pos
    if rnd (rnd (dotR rnd closestCorner (f.plane i).n + (f.plane i).d) + radius) < 0 then
      (false, st.2)
    else if !st.2 then
      let furthestCorner :=
        ((cubeCorners cornerIndex).scaleR rnd (rnd (radius * -1))).addR rnd pos
      if rnd (rnd (dotR rnd furthestCorner (f.plane i).n + (f.plane i).d) + radius) < 0 then
        (st.1, true)
      else st
    else st
  else st

/-- The method `ViewingFrustum::containsNode` (lines 14-67) with rounded arithmetic. -/
def containsNodeR (rnd : ℚ → ℚ) (f : ViewingFrustum) (pos : Vector) (radius : ℚ) : Nat :=
  let st := (List.finRange 6).foldl (containsNodeStepR rnd f pos radius) (true, false)
  if st.1 && !st.2 then 2
  else if st.1 && st.2 then 1
  else 0

end ViewingFrustum

namespace Octree

/-- The method `Octree::checkObjectWithinNode` (lines 200-214) with rounded arithmetic. -/
def checkObjectWithinNodeR (rnd : ℚ → ℚ) (midPoint : Vector) (radius : ℚ)
    (checkPosition : Vector) (checkRadius : ℚ) : Bool :=
  let toReturn := true
  let toReturn :=
    if toReturn && decide (rnd (checkPosition.x - checkRadius) ≤ rnd (midPoint.x - radius))
    then false else toReturn
  let toReturn :=
    if toReturn && decide (rnd (checkPosition.x + checkRadius) ≥ rnd (midPoint.x + radius))
    then false else toReturn
  let toReturn :=
    if toReturn && decide (rnd (checkPosition.y - checkRadius) ≤ rnd (midPoint.y - radius))
    then false else toReturn
  let toReturn :=
    if toReturn && decide (rnd (checkPosition.y + checkRadius) ≥ rnd (midPoint.y + radius))
    then false else toReturn
  let toReturn :=
    if toReturn && decide (rnd (checkPosition.z - checkRadius) ≤ rnd (midPoint.z - radius))
    then false else toReturn
  let toReturn :=
    if toReturn && decide (rnd (checkPosition.z + checkRadius) ≥ rnd (midPoint.z + radius))
    then false else toReturn
  toReturn

/-- The `radius` after lines 223-231 of `Add`, with rounded arithmetic. -/
def initRadiusR (rnd : ℚ → ℚ) (radius : ℚ) (toAdd : iObject) : ℚ :=
  if radius = 0 then
    (if toAdd.getRadius = 0 then rnd (toAdd.getRadius + 1) else toAdd.getRadius)
  else radius

/-- The root-growth step of `Add` (lines 308-341) with rounded arithmetic. -/
def growR (rnd : ℚ → ℚ) (midPoint : Vector) (radius : ℚ) (nodes : Fin 8 → Octree)
    (objectsAtNodeLevel : List iObject) (numNodes : Int) (checkPosition : Vector) : Octree :=
  let nodeCopy := node midPoint radius nodes objectsAtNodeLevel numNodes
  let checkSector := checkPosition.subR rnd midPoint
  let cornerIndex := cornerIndexGe checkSector
  let nodes1 : Fin 8 → Octree := noNodes
  let midPoint1 := ((cubeCorners cornerIndex).scaleR rnd radius).addR rnd midPoint
  let radius1 := rnd (radius * 2)
  let numNodes1 : Int := 0
  let cornerIndex1 := cornerIndexGt (checkSector.scaleR rnd (-1))
  node midPoint1 radius1 (Function.update nodes1 cornerIndex1 nodeCopy) [] (numNodes1 + 1)

/-- The method `Octree::Add(const iObject*, bool)` (lines 221-347) with rounded arithmetic;
the result is as for `Add`. -/
def AddR (rnd : ℚ → ℚ) (MINIMUM_NODE_RADIUS : ℚ) :
    Nat → Octree → iObject → Bool → Option (Bool × Octree)
  | 0, _, _, _ => none
  | _ + 1, null, _, _ => none
  | fuel + 1, node midPoint0 radius0 nodes objectsAtNodeLevel numNodes, toAdd,
      isTopLevelNode =>
    let radius := initRadiusR rnd radius0 toAdd
    let midPoint := initMidPoint midPoint0 radius0 toAdd
    let checkRadius := toAdd.getRadius
    let checkPosition := toAdd.position
    let isInNode := checkObjectWithinNodeR rnd midPoint radius checkPosition checkRadius
    if isInNode then
      let checkSector := checkPosition.subR rnd midPoint
      let cornerIndex := cornerIndexGe checkSector
      match nodes cornerIndex with
      | null =>
        let newRadius := rnd (radius / 2)
        if newRadius < MINIMUM_NODE_RADIUS then
          some (true, node midPoint radius nodes (objectsAtNodeLevel ++ [toAdd]) numNodes)
        else
          let newMidPoint := ((cubeCorners cornerIndex).scaleR rnd newRadius).addR rnd midPoint
          match AddR rnd MINIMUM_NODE_RADIUS fuel (mkNode newMidPoint newRadius) toAdd
              false with
          | none => none
          | some (true, child) =>
            some (true, node midPoint radius (Function.update nodes cornerIndex child)
              objectsAtNodeLevel (numNodes + 1))
          | some (false, _) =>
            some (true, node midPoint radius (Function.update nodes cornerIndex null)
              (objectsAtNodeLevel ++ [toAdd]) (numNodes + 1 - 1))
      | child0 =>
        match AddR rnd MINIMUM_NODE_RADIUS fuel child0 toAdd false with
        | none => none
        | some (true, child) =>
          some (true, node midPoint radius (Function.update nodes cornerIndex child)
            objectsAtNodeLevel numNodes)
        | some (false, child) =>
          some (true, node midPoint radius (Function.update nodes cornerIndex child)
            (objectsAtNodeLevel ++ [toAdd]) numNodes)
    else if !isInNode && !isTopLevelNode then
      some (false, node midPoint radius nodes objectsAtNodeLevel numNodes)
    else
      AddR rnd MINIMUM_NODE_RADIUS fuel
        (growR rnd midPoint radius nodes objectsAtNodeLevel numNodes checkPosition) toAdd true

/-- The public `Octree::Add(const iObject*)` (lines 216-219) with rounded arithmetic. -/
def AddTopR (rnd : ℚ → ℚ) (MINIMUM_NODE_RADIUS : ℚ) (fuel : Nat) (t : Octree)
    (toAdd : iObject) : Option Octree :=
  (AddR rnd MINIMUM_NODE_RADIUS fuel t toAdd true).map Prod.snd

/-- A sequence of public `Add` calls with rounded arithmetic. -/
def addAllR (rnd : ℚ → ℚ) (MINIMUM_NODE_RADIUS : ℚ) (fuel : Nat) :
    List iObject → Octree → Option Octree
  | [], t => some t
  | o :: os, t =>
    match AddTopR rnd MINIMUM_NODE_RADIUS fuel t o with
    | none => none
    | some t1 => addAllR rnd MINIMUM_NODE_RADIUS fuel os t1

/-- The method `Octree::calcVisibility` (lines 137-198) with the rounded `containsNode`. -/
def calcVisibilityR (rnd : ℚ → ℚ) (frustum : ViewingFrustum) (contains : iObject → Bool) :
    Octree → Bool → List iObject → List iObject
  | null, _, visibleObject => visibleObject
  | node midPoint radius nodes objectsAtNodeLevel _, skipVisibilityChecking, visibleObject =>
    let contains1 : Nat :=
      if skipVisibilityChecking then 2 else frustum.containsNodeR rnd midPoint radius
    match contains1 with
    | 0 => visibleObject
    | 1 =>
      (List.finRange 8).foldl
        (fun out cNode => calcVisibilityR rnd frustum contains (nodes cNode) false out)
        (visibleObject ++ objectsAtNodeLevel.filter contains)
    | 2 =>
      (List.finRange 8).foldl
        (fun out cNode => calcVisibilityR rnd frustum contains (nodes cNode) true out)
        (visibleObject ++ objectsAtNodeLevel)
    | _ => visibleObject

end Octree

/-! ## Sample inputs for rounded arithmetic

All coordinates, radii and plane coefficients below are binary32 values. -/

/-- An object at `(10^10, 0, 0)` with radius 1. -/
def objBig : iObject := ⟨7, ⟨10 ^ 10, 0, 0⟩, 1⟩

/-- An object at `(-1/2, 0, 0)` with radius 0. -/
def objNeg : iObject := ⟨8, ⟨-1 / 2, 0, 0⟩, 0⟩

/-- An object at `(10^8, 0, 0)` with radius 1. -/
def objFar : iObject := ⟨9, ⟨10 ^ 8, 0, 0⟩, 1⟩

/-- An object at `(2^24, 0, 0)` with radius 0. -/
def objEdge : iObject := ⟨10, ⟨2 ^ 24, 0, 0⟩, 0⟩

/-- An object at `(2^24 - 1, 0, 0)` with radius 1/2. -/
def objIn : iObject := ⟨11, ⟨16777215, 0, 0⟩, 1 / 2⟩

/-- A frustum whose first plane has normal `n` and offset `d` and whose other five planes
have normal `(0, 0, 0)` and offset `1`, so that only the first plane constrains. -/
def onePlane (n : Vector) (d : ℚ) : ViewingFrustum :=
  ⟨fun i =>
    match i with
    | 0 => ⟨n, d⟩
    | _ => ⟨⟨0, 0, 0⟩, 1⟩⟩

/-! ## The frustum classifier -/

theorem cubeCorners_cornerIndexGe (n : Vector) : cubeCorners (cornerIndexGe n) = cornerSign n := by
  unfold cornerIndexGe cornerSign
  by_cases hx : n.x ≥ 0 <;> by_cases hy : n.y ≥ 0 <;> by_cases hz : n.z ≥ 0 <;>
    simp [hx, hy, hz, cornerBits] <;> rfl

namespace ViewingFrustum

theorem closest_eq_near (f : ViewingFrustum) (pos : Vector) (radius : ℚ) (i : Fin 6) :
    dot (((cubeCorners (cornerIndexGe (f.plane i).n)).scale radius).add pos) (f.plane i).n
      + (f.plane i).d + radius = nearValue f pos radius i := by
  rw [cubeCorners_cornerIndexGe]
  simp only [nearValue, dot, Vector.add, Vector.scale]
  ring

theorem furthest_eq_far (f : ViewingFrustum) (pos : Vector) (radius : ℚ) (i : Fin 6) :
    dot (((cubeCorners (cornerIndexGe (f.plane i).n)).scale (radius * -1)).add pos) (f.plane i).n
      + (f.plane i).d + radius = farValue f pos radius i := by
  rw [cubeCorners_cornerIndexGe]
  simp only [farValue, dot, Vector.add, Vector.sub, Vector.scale]
  ring

theorem containsNodeStep_eq (f : ViewingFrustum) (pos : Vector) (radius : ℚ)
    (st : Bool × Bool) (i : Fin 6) :
    containsNodeStep f pos radius st i =
      if st.1 then
        if nearValue f pos radius i < 0 then (false, st.2)
        else if !st.2 then
          if farValue f pos radius i < 0 then (st.1, true) else st
        else st
      else st := by
  simp only [containsNodeStep, closest_eq_near, furthest_eq_far]

theorem foldl_step_false (f : ViewingFrustum) (pos : Vector) (radius : ℚ) (p : Bool)
    (l : List (Fin 6)) :
    l.foldl (containsNodeStep f pos radius) (false, p) = (false, p) := by
  induction l with
  | nil => rfl
  | cons i l ih => simp [List.foldl_cons, containsNodeStep_eq, ih]

theorem foldl_step_true (f : ViewingFrustum) (pos : Vector) (radius : ℚ) (l : List (Fin 6)) :
    ∀ p : Bool,
      ((l.foldl (containsNodeStep f pos radius) (true, p)).1 = true ↔
        ∀ i ∈ l, 0 ≤ nearValue f pos radius i) ∧
      ((l.foldl (containsNodeStep f pos radius) (true, p)).1 = true →
        ((l.foldl (containsNodeStep f pos radius) (true, p)).2 = true ↔
          (p = true ∨ ∃ i ∈ l, farValue f pos radius i < 0))) := by
  induction l with
  | nil => intro p; simp
  | cons i l ih =>
    intro p
    rw [List.foldl_cons, containsNodeStep_eq]
    by_cases hn : nearValue f pos radius i < 0
    · simp [hn, foldl_step_false]
    · have hn' : 0 ≤ nearValue f pos radius i := not_lt.mp hn
      cases p with
      | true =>
        simp only [hn, if_true, if_false, Bool.not_true, Bool.false_eq_true]
        have := ih true
        simp [hn', this.1]
        intro h
        have h2 := this.2 (this.1.mpr h)
        simpa using h2
      | false =>
        by_cases hf : farValue f pos radius i < 0
        · simp only [hn, hf, if_true, if_false, Bool.not_false]
          have := ih true
          simp [hn', this.1]
          intro h
          have h2 := this.2 (this.1.mpr h)
          simp at h2
          simp [h2]
          exact Or.inl hf
        · simp only [hn, hf, if_true, if_false, Bool.not_false]
          have := ih false
          simp [hn', this.1]
          intro h
          have h2 := this.2 (this.1.mpr h)
          simp at h2
          simp [h2, hf]

theorem containsNode_spec (f : ViewingFrustum) (pos : Vector) (radius : ℚ) :
    (f.containsNode pos radius = 0 ↔ ∃ i, nearValue f pos radius i < 0) ∧
    (f.containsNode pos radius = 1 ↔
      (∀ i, 0 ≤ nearValue f pos radius i) ∧ ∃ i, farValue f pos radius i < 0) ∧
    (f.containsNode pos radius = 2 ↔
      ∀ i, 0 ≤ nearValue f pos radius i ∧ 0 ≤ farValue f pos radius i) := by
  have key := foldl_step_true f pos radius (List.finRange 6) false
  simp only [List.mem_finRange, true_and, Bool.false_eq_true, false_or, forall_const] at key
  obtain ⟨k1, k2⟩ := key
  unfold containsNode
  simp only
  cases h1 : ((List.finRange 6).foldl (containsNodeStep f pos radius) (true, false)).1
  · have hn : ¬ ∀ i, 0 ≤ nearValue f pos radius i := by
      rw [← k1, h1]; simp
    push_neg at hn
    simp only [Bool.false_and, Bool.false_eq_true, if_false, true_iff]
    refine ⟨hn, ?_, ?_⟩
    · simp
      intro h; obtain ⟨i, hi⟩ := hn; exact absurd (h i) (not_le.mpr hi)
    · simp
      obtain ⟨i, hi⟩ := hn
      exact ⟨i, fun h => absurd h (not_le.mpr hi)⟩
  · have hn : ∀ i, 0 ≤ nearValue f pos radius i := by rw [← k1, h1]
    have k2' := k2 h1
    cases h2 : ((List.finRange 6).foldl (containsNodeStep f pos radius) (true, false)).2
    · have hf : ¬ ∃ i, farValue f pos radius i < 0 := by rw [← k2', h2]; simp
      push_neg at hf
      simp
      refine ⟨hn, ?_, fun i => ⟨hn i, hf i⟩⟩
      intro _; exact hf
    · have hf : ∃ i, farValue f pos radius i < 0 := by rw [← k2', h2]
      simp
      refine ⟨hn, ⟨hn, hf⟩, ?_⟩
      obtain ⟨i, hi⟩ := hf
      exact ⟨i, fun _ => hi⟩

/-- C6, amended: in exact arithmetic `containsNode` is the declarative classification: it
returns 0 (OUTSIDE) iff
`near_i < 0` for some plane, 1 (PARTIAL) iff `near_i >= 0` for all planes and `far_i < 0`
for some plane, and 2 (INSIDE) iff `near_i >= 0` and `far_i >= 0` for all planes; in
particular planes with `near_i = 0` do not reject the cube. -/
theorem C6_containsNode_classification (f : ViewingFrustum) (pos : Vector) (radius : ℚ) :
    (f.containsNode pos radius = 0 ↔ ∃ i, nearValue f pos radius i < 0) ∧
    (f.containsNode pos radius = 1 ↔
      (∀ i, 0 ≤ nearValue f pos radius i) ∧ ∃ i, farValue f pos radius i < 0) ∧
    (f.containsNode pos radius = 2 ↔
      ∀ i, 0 ≤ nearValue f pos radius i ∧ 0 ≤ farValue f pos radius i) ∧
    ((∀ i, nearValue f pos radius i = 0) → f.containsNode pos radius ≠ 0) := by
  obtain ⟨h0, h1, h2⟩ := containsNode_spec f pos radius
  refine ⟨h0, h1, h2, ?_⟩
  intro hz hc
  obtain ⟨i, hi⟩ := h0.mp hc
  rw [hz i] at hi
  exact lt_irrefl _ hi

end ViewingFrustum

theorem axis_mul_le {p c R n : ℚ} (h1 : c - R ≤ p) (h2 : p ≤ c + R) :
    p * n ≤ (c + (if n ≥ 0 then 1 else -1) * R) * n := by
  by_cases hn : n ≥ 0
  · simp only [hn, if_true]
    have : 0 ≤ (c + R - p) * n := mul_nonneg (by linarith) hn
    nlinarith
  · simp only [hn, if_false]
    push_neg at hn
    have : 0 ≤ (p - (c - R)) * (-n) := mul_nonneg (by linarith) (by linarith)
    nlinarith

/-- The corner picked by the sign bits maximises `dot(x, n)` over the cube. -/
theorem dot_le_corner {p pos n : Vector} {R : ℚ}
    (hx : pos.x - R ≤ p.x ∧ p.x ≤ pos.x + R) (hy : pos.y - R ≤ p.y ∧ p.y ≤ pos.y + R)
    (hz : pos.z - R ≤ p.z ∧ p.z ≤ pos.z + R) :
    dot p n ≤ dot (pos.add ((cornerSign n).scale R)) n := by
  have ex := axis_mul_le (n := n.x) hx.1 hx.2
  have ey := axis_mul_le (n := n.y) hy.1 hy.2
  have ez := axis_mul_le (n := n.z) hz.1 hz.2
  simp only [dot, Vector.add, Vector.scale, cornerSign]
  linarith

namespace ViewingFrustum

/-- A cube classified OUTSIDE holds no point that passes the point test. -/
theorem containsObject_false_of_outside (f : ViewingFrustum) (pos : Vector) (R : ℚ)
    (hR : 0 ≤ R) (h : f.containsNode pos R = 0) (o : iObject)
    (hx : pos.x - R ≤ o.position.x ∧ o.position.x ≤ pos.x + R)
    (hy : pos.y - R ≤ o.position.y ∧ o.position.y ≤ pos.y + R)
    (hz : pos.z - R ≤ o.position.z ∧ o.position.z ≤ pos.z + R) :
    f.containsObject o = false := by
  obtain ⟨i, hi⟩ := (containsNode_spec f pos R).1.mp h
  unfold containsObject
  rw [decide_eq_false_iff_not]
  intro hall
  have h1 := hall i
  have h2 := dot_le_corner (n := (f.plane i).n) hx hy hz
  unfold nearValue at hi
  linarith

end ViewingFrustum

/-! ## The visibility traversal -/

namespace Octree

theorem foldl_eq_append_flatMap {α β : Type} (g : List β → α → List β) (h : α → List β)
    (l : List α) (hg : ∀ i ∈ l, ∀ out, g out i = out ++ h i) (out : List β) :
    l.foldl g out = out ++ l.flatMap h := by
  induction l generalizing out with
  | nil => simp
  | cons a l ih =>
    rw [List.foldl_cons, hg a (List.mem_cons_self a l),
      ih (fun i hi => hg i (List.mem_cons_of_mem a hi))]
    simp [List.flatMap_cons, List.append_assoc]

theorem calcVisibility_node_skip (frustum : ViewingFrustum) (contains : iObject → Bool)
    (midPoint : Vector) (radius : ℚ) (nodes : Fin 8 → Octree) (objs : List iObject)
    (numNodes : Int) (out : List iObject) :
    calcVisibility frustum contains (node midPoint radius nodes objs numNodes) true out =
      (List.finRange 8).foldl
        (fun out cNode => calcVisibility frustum contains (nodes cNode) true out)
        (out ++ objs) := by
  simp [calcVisibility]

theorem calcVisibility_node_outside (frustum : ViewingFrustum) (contains : iObject → Bool)
    (midPoint : Vector) (radius : ℚ) (nodes : Fin 8 → Octree) (objs : List iObject)
    (numNodes : Int) (out : List iObject) (h : frustum.containsNode midPoint radius = 0) :
    calcVisibility frustum contains (node midPoint radius nodes objs numNodes) false out =
      out := by
  simp [calcVisibility, h]

theorem calcVisibility_node_partly (frustum : ViewingFrustum) (contains : iObject → Bool)
    (midPoint : Vector) (radius : ℚ) (nodes : Fin 8 → Octree) (objs : List iObject)
    (numNodes : Int) (out : List iObject) (h : frustum.containsNode midPoint radius = 1) :
    calcVisibility frustum contains (node midPoint radius nodes objs numNodes) false out =
      (List.finRange 8).foldl
        (fun out cNode => calcVisibility frustum contains (nodes cNode) false out)
        (out ++ objs.filter contains) := by
  simp [calcVisibility, h]

theorem calcVisibility_node_inside (frustum : ViewingFrustum) (contains : iObject → Bool)
    (midPoint : Vector) (radius : ℚ) (nodes : Fin 8 → Octree) (objs : List iObject)
    (numNodes : Int) (out : List iObject) (h : frustum.containsNode midPoint radius = 2) :
    calcVisibility frustum contains (node midPoint radius nodes objs numNodes) false out =
      (List.finRange 8).foldl
        (fun out cNode => calcVisibility frustum contains (nodes cNode) true out)
        (out ++ objs) := by
  simp [calcVisibility, h]

theorem calcVisibility_skip (frustum : ViewingFrustum) (contains : iObject → Bool)
    (t : Octree) : ∀ out, calcVisibility frustum contains t true out = out ++ flatten t := by
  induction t with
  | null => intro out; simp [calcVisibility, flatten]
  | node midPoint radius nodes objs numNodes ih =>
    intro out
    rw [calcVisibility_node_skip, foldl_eq_append_flatMap _ (fun i => flatten (nodes i)) _ (fun i _ out => ih i out)]
    simp [flatten, List.append_assoc]

theorem coe_flatMap_finRange (h : Fin 8 → List iObject) :
    (((List.finRange 8).flatMap h : List iObject) : Multiset iObject) =
      Finset.univ.sum (fun i => (h i : Multiset iObject)) := by
  have e : List.finRange 8 = [0, 1, 2, 3, 4, 5, 6, 7] := by decide
  rw [e, Fin.sum_univ_eight]
  simp only [List.flatMap_cons, List.flatMap_nil, List.append_nil, ← Multiset.coe_add,
    List.append_assoc, add_assoc]

theorem coe_flatten (t : Octree) : (flatten t : Multiset iObject) = allObjects t := by
  induction t with
  | null => simp [flatten, allObjects]
  | node midPoint radius nodes objs numNodes ih =>
    rw [flatten, allObjects, ← Multiset.coe_add, coe_flatMap_finRange]
    congr 1
    exact Finset.sum_congr rfl (fun i _ => ih i)

/-- C4: when `containsNode(root.midPoint, root.radius)` returns 2 (INSIDE),
`calcVisibility` appends to the output list exactly the objects stored in the tree (every
local object of every node, each as many times as it is stored, in traversal order),
whatever the per-object test `contains` and whatever the frustum says about descendants. -/
theorem C4_calcVisibility_inside (frustum : ViewingFrustum) (contains : iObject → Bool)
    (midPoint : Vector) (radius : ℚ) (nodes : Fin 8 → Octree) (objs : List iObject)
    (numNodes : Int) (out : List iObject)
    (h : frustum.containsNode midPoint radius = 2) :
    calcVisibility frustum contains (node midPoint radius nodes objs numNodes) false out =
        out ++ flatten (node midPoint radius nodes objs numNodes) ∧
      ((flatten (node midPoint radius nodes objs numNodes) : List iObject) :
        Multiset iObject) = allObjects (node midPoint radius nodes objs numNodes) := by
  refine ⟨?_, coe_flatten _⟩
  rw [calcVisibility_node_inside _ _ _ _ _ _ _ _ h, foldl_eq_append_flatMap _ (fun i => flatten (nodes i)) _
    (fun i _ out => calcVisibility_skip frustum contains (nodes i) out)]
  simp [flatten, List.append_assoc]

/-- Witness for C4: `sampleTree` under `openFrustum`, with a per-object test that rejects
everything. -/
theorem C4_calcVisibility_inside_witness :
    openFrustum.containsNode ⟨-1, -1, -1⟩ 4 = 2 ∧
      calcVisibility openFrustum (fun _ => false) sampleTree false [] = [objA, objD] := by
  have h := (C4_calcVisibility_inside openFrustum (fun _ => false) ⟨-1, -1, -1⟩ 4
    (Function.update noNodes 7 (node ⟨1, 1, 1⟩ 2 noNodes [objD] 0)) [objA] 1 []
    (by decide!)).1
  refine ⟨by decide!, ?_⟩
  rw [sampleTree, h]
  decide!

end Octree

/-! ## Insertion -/

namespace Octree

theorem Add_node_cases {m : ℚ} {fuel : Nat} {mid0 : Vector} {R0 : ℚ} {nodes : Fin 8 → Octree}
    {objs : List iObject} {n : Int} {o : iObject} {top b : Bool} {t' : Octree}
    (h : Add m (fuel + 1) (node mid0 R0 nodes objs n) o top = some (b, t')) :
    (checkObjectWithinNode (initMidPoint mid0 R0 o) (initRadius R0 o) o.position o.getRadius = true ∧
      b = true ∧
      ((nodes (cornerIndexGe (o.position.sub (initMidPoint mid0 R0 o))) = null ∧
          initRadius R0 o / 2 < m ∧
          t' = node (initMidPoint mid0 R0 o) (initRadius R0 o) nodes (objs ++ [o]) n) ∨
       (nodes (cornerIndexGe (o.position.sub (initMidPoint mid0 R0 o))) = null ∧
          ¬ initRadius R0 o / 2 < m ∧
          ∃ c, Add m fuel (mkNode (((cubeCorners (cornerIndexGe (o.position.sub
              (initMidPoint mid0 R0 o)))).scale (initRadius R0 o / 2)).add
              (initMidPoint mid0 R0 o)) (initRadius R0 o / 2)) o false = some (true, c) ∧
            t' = node (initMidPoint mid0 R0 o) (initRadius R0 o)
              (Function.update nodes (cornerIndexGe (o.position.sub (initMidPoint mid0 R0 o))) c)
              objs (n + 1)) ∨
       (nodes (cornerIndexGe (o.position.sub (initMidPoint mid0 R0 o))) = null ∧
          ¬ initRadius R0 o / 2 < m ∧
          ∃ c, Add m fuel (mkNode (((cubeCorners (cornerIndexGe (o.position.sub
              (initMidPoint mid0 R0 o)))).scale (initRadius R0 o / 2)).add
              (initMidPoint mid0 R0 o)) (initRadius R0 o / 2)) o false = some (false, c) ∧
            t' = node (initMidPoint mid0 R0 o) (initRadius R0 o)
              (Function.update nodes (cornerIndexGe (o.position.sub (initMidPoint mid0 R0 o))) null)
              (objs ++ [o]) (n + 1 - 1)) ∨
       (nodes (cornerIndexGe (o.position.sub (initMidPoint mid0 R0 o))) ≠ null ∧
          ∃ c, Add m fuel (nodes (cornerIndexGe (o.position.sub (initMidPoint mid0 R0 o)))) o false
              = some (true, c) ∧
            t' = node (initMidPoint mid0 R0 o) (initRadius R0 o)
              (Function.update nodes (cornerIndexGe (o.position.sub (initMidPoint mid0 R0 o))) c)
              objs n) ∨
       (nodes (cornerIndexGe (o.position.sub (initMidPoint mid0 R0 o))) ≠ null ∧
          ∃ c, Add m fuel (nodes (cornerIndexGe (o.position.sub (initMidPoint mid0 R0 o)))) o false
              = some (false, c) ∧
            t' = node (initMidPoint mid0 R0 o) (initRadius R0 o)
              (Function.update nodes (cornerIndexGe (o.position.sub (initMidPoint mid0 R0 o))) c)
              (objs ++ [o]) n))) ∨
    (checkObjectWithinNode (initMidPoint mid0 R0 o) (initRadius R0 o) o.position o.getRadius = false ∧
      top = false ∧ b = false ∧
      t' = node (initMidPoint mid0 R0 o) (initRadius R0 o) nodes objs n) ∨
    (checkObjectWithinNode (initMidPoint mid0 R0 o) (initRadius R0 o) o.position o.getRadius = false ∧
      top = true ∧
      Add m fuel (grow (initMidPoint mid0 R0 o) (initRadius R0 o) nodes objs n o.position) o true
        = some (b, t')) := by
  rw [Add] at h
  simp only at h
  split at h
  · rename_i hin
    left
    refine ⟨hin, ?_⟩
    split at h
    · rename_i hnull
      split at h
      · rename_i hsmall
        simp only [Option.some.injEq, Prod.mk.injEq] at h
        exact ⟨h.1.symm, Or.inl ⟨hnull, hsmall, h.2.symm⟩⟩
      · rename_i hbig
        split at h
        · exact absurd h (by simp)
        · rename_i c hc
          simp only [Option.some.injEq, Prod.mk.injEq] at h
          exact ⟨h.1.symm, Or.inr (Or.inl ⟨hnull, hbig, c, hc, h.2.symm⟩)⟩
        · rename_i c hc
          simp only [Option.some.injEq, Prod.mk.injEq] at h
          exact ⟨h.1.symm, Or.inr (Or.inr (Or.inl ⟨hnull, hbig, c, hc, h.2.symm⟩))⟩
    · rename_i hnn
      split at h
      · exact absurd h (by simp)
      · rename_i c hc
        simp only [Option.some.injEq, Prod.mk.injEq] at h
        exact ⟨h.1.symm, Or.inr (Or.inr (Or.inr (Or.inl ⟨fun e => hnn e, c, hc, h.2.symm⟩)))⟩
      · rename_i c hc
        simp only [Option.some.injEq, Prod.mk.injEq] at h
        exact ⟨h.1.symm, Or.inr (Or.inr (Or.inr (Or.inr ⟨fun e => hnn e, c, hc, h.2.symm⟩)))⟩
  · rename_i hin
    right
    have hin' : checkObjectWithinNode (initMidPoint mid0 R0 o) (initRadius R0 o) o.position
        o.getRadius = false := by simpa using hin
    split at h
    · rename_i htop
      simp only [Option.some.injEq, Prod.mk.injEq] at h
      left
      refine ⟨hin', ?_, h.1.symm, h.2.symm⟩
      simpa [hin'] using htop
    · rename_i htop
      right
      refine ⟨hin', ?_, h⟩
      simpa [hin'] using htop

theorem sum_update_add {M : Type} [AddCommMonoid M] (g : Octree → M) (nodes : Fin 8 → Octree)
    (i : Fin 8) (c : Octree) :
    Finset.univ.sum (fun j => g (Function.update nodes i c j)) + g (nodes i) =
      Finset.univ.sum (fun j => g (nodes j)) + g c := by
  have h1 : Finset.univ.sum (fun j => g (Function.update nodes i c j)) =
      g c + (Finset.univ.erase i).sum (fun j => g (nodes j)) := by
    rw [← Finset.add_sum_erase _ _ (Finset.mem_univ i), Function.update_same]
    congr 1
    apply Finset.sum_congr rfl
    intro j hj
    rw [Function.update_noteq (Finset.ne_of_mem_erase hj)]
  have h2 : Finset.univ.sum (fun j => g (nodes j)) =
      g (nodes i) + (Finset.univ.erase i).sum (fun j => g (nodes j)) :=
    (Finset.add_sum_erase _ _ (Finset.mem_univ i)).symm
  rw [h1, h2]
  abel

theorem coe_append_singleton (objs : List iObject) (o : iObject) :
    ((objs ++ [o] : List iObject) : Multiset iObject) = (objs : Multiset iObject) + {o} := by
  rw [← Multiset.coe_add, Multiset.coe_singleton]

theorem allObjects_node (midPoint : Vector) (radius : ℚ) (nodes : Fin 8 → Octree)
    (objs : List iObject) (numNodes : Int) :
    allObjects (node midPoint radius nodes objs numNodes) =
      (objs : Multiset iObject) + Finset.univ.sum (fun i => allObjects (nodes i)) := by
  rw [allObjects]

theorem allObjects_update (midPoint : Vector) (radius : ℚ) (nodes : Fin 8 → Octree)
    (objs : List iObject) (numNodes : Int) (i : Fin 8) (c : Octree) :
    allObjects (node midPoint radius (Function.update nodes i c) objs numNodes)
        + allObjects (nodes i) =
      (objs : Multiset iObject) + Finset.univ.sum (fun j => allObjects (nodes j))
        + allObjects c := by
  rw [allObjects_node, add_assoc, sum_update_add allObjects, add_assoc]

theorem allObjects_update_null (midPoint : Vector) (radius : ℚ) (nodes : Fin 8 → Octree)
    (objs : List iObject) (numNodes : Int) (i : Fin 8) (c : Octree) (h : nodes i = null) :
    allObjects (node midPoint radius (Function.update nodes i c) objs numNodes) =
      (objs : Multiset iObject) + Finset.univ.sum (fun j => allObjects (nodes j))
        + allObjects c := by
  have := allObjects_update midPoint radius nodes objs numNodes i c
  rwa [h, allObjects, add_zero] at this

theorem allObjects_mkNode (mid : Vector) (rad : ℚ) : allObjects (mkNode mid rad) = 0 := by
  simp [mkNode, allObjects_node, noNodes, allObjects]

theorem allObjects_grow (midPoint : Vector) (radius : ℚ) (nodes : Fin 8 → Octree)
    (objs : List iObject) (numNodes : Int) (p : Vector) :
    allObjects (grow midPoint radius nodes objs numNodes p) =
      allObjects (node midPoint radius nodes objs numNodes) := by
  unfold grow
  simp only
  rw [allObjects_update_null _ _ _ _ _ _ _ rfl]
  simp [noNodes, allObjects]

/-- The objects stored after `Add` are those stored before, plus the new object once when
the call reports success. -/
theorem Add_allObjects (m : ℚ) (o : iObject) :
    ∀ (fuel : Nat) (t : Octree) (top b : Bool) (t' : Octree),
      Add m fuel t o top = some (b, t') →
      allObjects t' = allObjects t + (if b then {o} else 0) := by
  intro fuel
  induction fuel with
  | zero => intro t top b t' h; simp [Add] at h
  | succ fuel ih =>
    intro t top b t' h
    cases t with
    | null => simp [Add] at h
    | node mid0 R0 nodes objs n =>
      rcases Add_node_cases h with ⟨-, hb, hc⟩ | ⟨-, -, hb, ht⟩ | ⟨-, -, hg⟩
      · subst hb
        simp only [if_true]
        rcases hc with ⟨-, -, ht⟩ | ⟨hnull, -, c, hc, ht⟩ | ⟨hnull, -, c, hc, ht⟩ |
          ⟨-, c, hc, ht⟩ | ⟨-, c, hc, ht⟩
        · subst ht
          rw [allObjects_node, allObjects_node, coe_append_singleton]
          abel
        · subst ht
          have hc' := ih _ _ _ _ hc
          rw [allObjects_mkNode, if_pos rfl, zero_add] at hc'
          rw [allObjects_update_null _ _ _ _ _ _ _ hnull, hc', allObjects_node]
        · subst ht
          rw [allObjects_update_null _ _ _ _ _ _ _ hnull, allObjects_node, allObjects,
            add_zero, coe_append_singleton]
          abel
        · subst ht
          have hc' := ih _ _ _ _ hc
          rw [if_pos rfl] at hc'
          have hu := allObjects_update (initMidPoint mid0 R0 o) (initRadius R0 o) nodes objs n
            (cornerIndexGe (o.position.sub (initMidPoint mid0 R0 o))) c
          rw [hc', ← allObjects_node mid0 R0 nodes objs n] at hu
          apply add_right_cancel (b := allObjects (nodes (cornerIndexGe (o.position.sub (initMidPoint mid0 R0 o)))))
          rw [hu]
          abel
        · subst ht
          have hc' := ih _ _ _ _ hc
          simp only [Bool.false_eq_true, if_false, add_zero] at hc'
          have hu := allObjects_update (initMidPoint mid0 R0 o) (initRadius R0 o) nodes
            (objs ++ [o]) n (cornerIndexGe (o.position.sub (initMidPoint mid0 R0 o))) c
          rw [hc'] at hu
          have hu' := add_right_cancel hu
          rw [hu', allObjects_node, coe_append_singleton]
          abel
      · subst hb ht
        simp [allObjects_node]
      · rw [ih _ _ _ _ hg, allObjects_grow]
        simp [allObjects_node]

end Octree
namespace Octree

theorem Add_intro_small {m : ℚ} {fuel : Nat} {mid0 : Vector} {R0 : ℚ} {nodes : Fin 8 → Octree}
    {objs : List iObject} {n : Int} {o : iObject} {top : Bool}
    (hin : checkObjectWithinNode (initMidPoint mid0 R0 o) (initRadius R0 o) o.position
      o.getRadius = true)
    (hnull : nodes (cornerIndexGe (o.position.sub (initMidPoint mid0 R0 o))) = null)
    (hs : initRadius R0 o / 2 < m) :
    Add m (fuel + 1) (node mid0 R0 nodes objs n) o top =
      some (true, node (initMidPoint mid0 R0 o) (initRadius R0 o) nodes (objs ++ [o]) n) := by
  rw [Add]
  simp only [hin, hnull, hs, if_true]

theorem Add_intro_new_true {m : ℚ} {fuel : Nat} {mid0 : Vector} {R0 : ℚ}
    {nodes : Fin 8 → Octree} {objs : List iObject} {n : Int} {o : iObject} {top : Bool}
    {c : Octree}
    (hin : checkObjectWithinNode (initMidPoint mid0 R0 o) (initRadius R0 o) o.position
      o.getRadius = true)
    (hnull : nodes (cornerIndexGe (o.position.sub (initMidPoint mid0 R0 o))) = null)
    (hs : ¬ initRadius R0 o / 2 < m)
    (hc : Add m fuel (mkNode (((cubeCorners (cornerIndexGe (o.position.sub
        (initMidPoint mid0 R0 o)))).scale (initRadius R0 o / 2)).add
        (initMidPoint mid0 R0 o)) (initRadius R0 o / 2)) o false = some (true, c)) :
    Add m (fuel + 1) (node mid0 R0 nodes objs n) o top =
      some (true, node (initMidPoint mid0 R0 o) (initRadius R0 o)
        (Function.update nodes (cornerIndexGe (o.position.sub (initMidPoint mid0 R0 o))) c)
        objs (n + 1)) := by
  rw [Add]
  simp only [hin, hnull, hs, hc, if_true, if_false]

theorem Add_intro_new_false {m : ℚ} {fuel : Nat} {mid0 : Vector} {R0 : ℚ}
    {nodes : Fin 8 → Octree} {objs : List iObject} {n : Int} {o : iObject} {top : Bool}
    {c : Octree}
    (hin : checkObjectWithinNode (initMidPoint mid0 R0 o) (initRadius R0 o) o.position
      o.getRadius = true)
    (hnull : nodes (cornerIndexGe (o.position.sub (initMidPoint mid0 R0 o))) = null)
    (hs : ¬ initRadius R0 o / 2 < m)
    (hc : Add m fuel (mkNode (((cubeCorners (cornerIndexGe (o.position.sub
        (initMidPoint mid0 R0 o)))).scale (initRadius R0 o / 2)).add
        (initMidPoint mid0 R0 o)) (initRadius R0 o / 2)) o false = some (false, c)) :
    Add m (fuel + 1) (node mid0 R0 nodes objs n) o top =
      some (true, node (initMidPoint mid0 R0 o) (initRadius R0 o)
        (Function.update nodes (cornerIndexGe (o.position.sub (initMidPoint mid0 R0 o))) null)
        (objs ++ [o]) (n + 1 - 1)) := by
  rw [Add]
  simp only [hin, hnull, hs, hc, if_true, if_false]

theorem Add_intro_old_true {m : ℚ} {fuel : Nat} {mid0 : Vector} {R0 : ℚ}
    {nodes : Fin 8 → Octree} {objs : List iObject} {n : Int} {o : iObject} {top : Bool}
    {c : Octree}
    (hin : checkObjectWithinNode (initMidPoint mid0 R0 o) (initRadius R0 o) o.position
      o.getRadius = true)
    (hnn : nodes (cornerIndexGe (o.position.sub (initMidPoint mid0 R0 o))) ≠ null)
    (hc : Add m fuel (nodes (cornerIndexGe (o.position.sub (initMidPoint mid0 R0 o)))) o false
      = some (true, c)) :
    Add m (fuel + 1) (node mid0 R0 nodes objs n) o top =
      some (true, node (initMidPoint mid0 R0 o) (initRadius R0 o)
        (Function.update nodes (cornerIndexGe (o.position.sub (initMidPoint mid0 R0 o))) c)
        objs n) := by
  rw [Add]
  simp only [hin, if_true]
  cases hch : nodes (cornerIndexGe (o.position.sub (initMidPoint mid0 R0 o))) with
  | null => exact absurd hch hnn
  | node a1 a2 a3 a4 a5 =>
    rw [hch] at hc
    simp only [hc]

theorem Add_intro_old_false {m : ℚ} {fuel : Nat} {mid0 : Vector} {R0 : ℚ}
    {nodes : Fin 8 → Octree} {objs : List iObject} {n : Int} {o : iObject} {top : Bool}
    {c : Octree}
    (hin : checkObjectWithinNode (initMidPoint mid0 R0 o) (initRadius R0 o) o.position
      o.getRadius = true)
    (hnn : nodes (cornerIndexGe (o.position.sub (initMidPoint mid0 R0 o))) ≠ null)
    (hc : Add m fuel (nodes (cornerIndexGe (o.position.sub (initMidPoint mid0 R0 o)))) o false
      = some (false, c)) :
    Add m (fuel + 1) (node mid0 R0 nodes objs n) o top =
      some (true, node (initMidPoint mid0 R0 o) (initRadius R0 o)
        (Function.update nodes (cornerIndexGe (o.position.sub (initMidPoint mid0 R0 o))) c)
        (objs ++ [o]) n) := by
  rw [Add]
  simp only [hin, if_true]
  cases hch : nodes (cornerIndexGe (o.position.sub (initMidPoint mid0 R0 o))) with
  | null => exact absurd hch hnn
  | node a1 a2 a3 a4 a5 =>
    rw [hch] at hc
    simp only [hc]

theorem Add_intro_reject {m : ℚ} {fuel : Nat} {mid0 : Vector} {R0 : ℚ}
    {nodes : Fin 8 → Octree} {objs : List iObject} {n : Int} {o : iObject}
    (hin : checkObjectWithinNode (initMidPoint mid0 R0 o) (initRadius R0 o) o.position
      o.getRadius = false) :
    Add m (fuel + 1) (node mid0 R0 nodes objs n) o false =
      some (false, node (initMidPoint mid0 R0 o) (initRadius R0 o) nodes objs n) := by
  rw [Add]
  simp [hin]

theorem Add_intro_grow {m : ℚ} {fuel : Nat} {mid0 : Vector} {R0 : ℚ}
    {nodes : Fin 8 → Octree} {objs : List iObject} {n : Int} {o : iObject}
    (hin : checkObjectWithinNode (initMidPoint mid0 R0 o) (initRadius R0 o) o.position
      o.getRadius = false) :
    Add m (fuel + 1) (node mid0 R0 nodes objs n) o true =
      Add m fuel (grow (initMidPoint mid0 R0 o) (initRadius R0 o) nodes objs n o.position)
        o true := by
  rw [Add]
  simp [hin]

/-- More fuel does not change a result. -/
theorem Add_mono (m : ℚ) (o : iObject) :
    ∀ (fuel : Nat) (t : Octree) (top : Bool) (r : Bool × Octree),
      Add m fuel t o top = some r → Add m (fuel + 1) t o top = some r := by
  intro fuel
  induction fuel with
  | zero => intro t top r h; simp [Add] at h
  | succ fuel ih =>
    intro t top r h
    obtain ⟨b, t'⟩ := r
    cases t with
    | null => simp [Add] at h
    | node mid0 R0 nodes objs n =>
      rcases Add_node_cases h with ⟨hin, hb, hc⟩ | ⟨hin, htop, hb, ht⟩ | ⟨hin, htop, hg⟩
      · subst hb
        rcases hc with ⟨hnull, hs, ht⟩ | ⟨hnull, hs, c, hc, ht⟩ | ⟨hnull, hs, c, hc, ht⟩ |
          ⟨hnn, c, hc, ht⟩ | ⟨hnn, c, hc, ht⟩
        · rw [ht]; exact Add_intro_small hin hnull hs
        · rw [ht]; exact Add_intro_new_true hin hnull hs (ih _ _ _ hc)
        · rw [ht]; exact Add_intro_new_false hin hnull hs (ih _ _ _ hc)
        · rw [ht]; exact Add_intro_old_true hin hnn (ih _ _ _ hc)
        · rw [ht]; exact Add_intro_old_false hin hnn (ih _ _ _ hc)
      · subst htop hb ht
        exact Add_intro_reject hin
      · subst htop
        rw [Add_intro_grow hin]
        exact ih _ _ _ hg

theorem Add_mono_le (m : ℚ) (o : iObject) {fuel fuel' : Nat} (hle : fuel ≤ fuel') (t : Octree)
    (top : Bool) (r : Bool × Octree) (h : Add m fuel t o top = some r) :
    Add m fuel' t o top = some r := by
  induction hle with
  | refl => exact h
  | step _ ih => exact Add_mono m o _ t top r ih

end Octree
namespace Octree

theorem check_iff (midPoint : Vector) (radius : ℚ) (o : iObject) :
    checkObjectWithinNode midPoint radius o.position o.getRadius = true ↔
      StrictlyInside midPoint radius o := by
  unfold checkObjectWithinNode StrictlyInside
  simp only [Bool.true_and, ge_iff_le]
  by_cases h1 : o.position.x - o.getRadius ≤ midPoint.x - radius
  · simp [h1]
  by_cases h2 : midPoint.x + radius ≤ o.position.x + o.getRadius
  · simp [h1, h2]
  by_cases h3 : o.position.y - o.getRadius ≤ midPoint.y - radius
  · simp [h1, h2, h3]
  by_cases h4 : midPoint.y + radius ≤ o.position.y + o.getRadius
  · simp [h1, h2, h3, h4]
  by_cases h5 : o.position.z - o.getRadius ≤ midPoint.z - radius
  · simp [h1, h2, h3, h4, h5]
  by_cases h6 : midPoint.z + radius ≤ o.position.z + o.getRadius
  · simp [h1, h2, h3, h4, h5, h6]
  simp [h1, h2, h3, h4, h5, h6]
  push_neg at h1 h2 h3 h4 h5 h6
  exact ⟨⟨h1, h2⟩, ⟨h3, h4⟩, h5, h6⟩

theorem strictlyInside_radius_pos {midPoint : Vector} {radius : ℚ} {o : iObject}
    (h : StrictlyInside midPoint radius o) (ho : 0 ≤ o.getRadius) : 0 < radius := by
  obtain ⟨⟨h1, h2⟩, -⟩ := h
  linarith

theorem cubeCorners_cases (i : Fin 8) :
    ((cubeCorners i).x = 1 ∨ (cubeCorners i).x = -1) ∧
    ((cubeCorners i).y = 1 ∨ (cubeCorners i).y = -1) ∧
    ((cubeCorners i).z = 1 ∨ (cubeCorners i).z = -1) := by
  fin_cases i <;> simp [cubeCorners]

theorem strictlyInside_grow {midPoint : Vector} {radius : ℚ} {o : iObject}
    (h : StrictlyInside midPoint radius o) (hR : 0 ≤ radius) (i : Fin 8) :
    StrictlyInside (((cubeCorners i).scale radius).add midPoint) (radius * 2) o := by
  obtain ⟨⟨h1, h2⟩, ⟨h3, h4⟩, h5, h6⟩ := h
  obtain ⟨hx, hy, hz⟩ := cubeCorners_cases i
  simp only [StrictlyInside, Vector.add, Vector.scale]
  refine ⟨⟨?_, ?_⟩, ⟨?_, ?_⟩, ?_, ?_⟩
  · rcases hx with e | e <;> rw [e] <;> linarith
  · rcases hx with e | e <;> rw [e] <;> linarith
  · rcases hy with e | e <;> rw [e] <;> linarith
  · rcases hy with e | e <;> rw [e] <;> linarith
  · rcases hz with e | e <;> rw [e] <;> linarith
  · rcases hz with e | e <;> rw [e] <;> linarith

theorem strictlyInside_init {mid0 : Vector} {R0 : ℚ} {o o' : iObject}
    (h : StrictlyInside mid0 R0 o') (ho : 0 ≤ o'.getRadius) :
    StrictlyInside (initMidPoint mid0 R0 o) (initRadius R0 o) o' := by
  have hpos := strictlyInside_radius_pos h ho
  have hne : R0 ≠ 0 := ne_of_gt hpos
  simpa [initMidPoint, initRadius, hne] using h

theorem initRadius_nonneg {R0 : ℚ} {o : iObject} (ho : 0 ≤ o.getRadius) (hR : 0 ≤ R0) :
    0 ≤ initRadius R0 o := by
  unfold initRadius
  split_ifs with h1 h2
  · rw [h2]; norm_num
  · exact ho
  · exact hR

theorem Contained_node (midPoint : Vector) (radius : ℚ) (nodes : Fin 8 → Octree)
    (objs : List iObject) (numNodes : Int) :
    Contained (node midPoint radius nodes objs numNodes) ↔
      (∀ o ∈ allObjects (node midPoint radius nodes objs numNodes),
        StrictlyInside midPoint radius o) ∧ ∀ i, Contained (nodes i) := by
  rw [Contained]

theorem allObjects_child_le (midPoint : Vector) (radius : ℚ) (nodes : Fin 8 → Octree)
    (objs : List iObject) (numNodes : Int) (i : Fin 8) :
    allObjects (nodes i) ≤ allObjects (node midPoint radius nodes objs numNodes) := by
  rw [allObjects_node, ← Finset.add_sum_erase _ _ (Finset.mem_univ i)]
  calc allObjects (nodes i) ≤ allObjects (nodes i) +
        (Finset.univ.erase i).sum (fun j => allObjects (nodes j)) := Multiset.le_add_right _ _
    _ ≤ _ := Multiset.le_add_left _ _

theorem Contained_update {nodes : Fin 8 → Octree} (h : ∀ i, Contained (nodes i)) (i : Fin 8)
    {c : Octree} (hc : Contained c) : ∀ j, Contained (Function.update nodes i c j) := by
  intro j
  by_cases e : j = i
  · subst e; rw [Function.update_same]; exact hc
  · rw [Function.update_noteq e]; exact h j

theorem Contained_mkNode (mid : Vector) (rad : ℚ) : Contained (mkNode mid rad) := by
  rw [mkNode, Contained_node]
  refine ⟨?_, fun i => by simp [noNodes, Contained]⟩
  intro o ho
  rw [← mkNode, allObjects_mkNode] at ho
  simp at ho

/-- The containment invariant is preserved by `Add`. -/
theorem Add_contained (m : ℚ) (o : iObject) (ho : 0 ≤ o.getRadius) :
    ∀ (fuel : Nat) (t : Octree) (top b : Bool) (t' : Octree),
      (top = true → 0 ≤ radius t) →
      (∀ o' ∈ allObjects t, 0 ≤ o'.getRadius) →
      Contained t →
      Add m fuel t o top = some (b, t') → Contained t' := by
  intro fuel
  induction fuel with
  | zero => intro t top b t' _ _ _ h; simp [Add] at h
  | succ fuel ih =>
    intro t top b t' hrad hnn hC h
    cases t with
    | null => simp [Add] at h
    | node mid0 R0 nodes objs n =>
      have hall := Add_allObjects m o _ _ _ _ _ h
      rw [Contained_node] at hC
      obtain ⟨hin0, hkids⟩ := hC
      have hold : ∀ o' ∈ allObjects (node mid0 R0 nodes objs n),
          StrictlyInside (initMidPoint mid0 R0 o) (initRadius R0 o) o' :=
        fun o' ho' => strictlyInside_init (hin0 o' ho') (hnn o' ho')
      have hkidnn : ∀ i, ∀ o' ∈ allObjects (nodes i), 0 ≤ o'.getRadius :=
        fun i o' ho' => hnn o' (Multiset.mem_of_le (allObjects_child_le _ _ _ _ _ i) ho')
      rcases Add_node_cases h with ⟨hin, hb, hc⟩ | ⟨hin, htop, hb, ht⟩ | ⟨hin, htop, hg⟩
      · subst hb
        rw [check_iff] at hin
        have hobjs : ∀ o' ∈ allObjects t',
            StrictlyInside (initMidPoint mid0 R0 o) (initRadius R0 o) o' := by
          intro o' ho'
          rw [hall, if_pos rfl, Multiset.mem_add, Multiset.mem_singleton] at ho'
          rcases ho' with ho' | ho'
          · exact hold o' ho'
          · rw [ho']; exact hin
        rcases hc with ⟨hnull, hs, ht⟩ | ⟨hnull, hs, c, hc, ht⟩ | ⟨hnull, hs, c, hc, ht⟩ |
          ⟨hnn', c, hc, ht⟩ | ⟨hnn', c, hc, ht⟩
        · subst ht
          rw [Contained_node]
          exact ⟨hobjs, hkids⟩
        · subst ht
          rw [Contained_node]
          refine ⟨hobjs, Contained_update hkids _ ?_⟩
          exact ih _ false _ _ (by simp) (by rw [allObjects_mkNode]; simp)
            (Contained_mkNode _ _) hc
        · subst ht
          rw [Contained_node]
          exact ⟨hobjs, Contained_update hkids _ (by simp [Contained])⟩
        · subst ht
          rw [Contained_node]
          refine ⟨hobjs, Contained_update hkids _ ?_⟩
          exact ih _ false _ _ (by simp) (hkidnn _) (hkids _) hc
        · subst ht
          rw [Contained_node]
          refine ⟨hobjs, Contained_update hkids _ ?_⟩
          exact ih _ false _ _ (by simp) (hkidnn _) (hkids _) hc
      · subst hb ht
        rw [Contained_node]
        refine ⟨?_, hkids⟩
        intro o' ho'
        rw [allObjects_node, ← allObjects_node mid0 R0] at ho'
        exact hold o' ho'
      · subst htop
        have hR : 0 ≤ initRadius R0 o := initRadius_nonneg ho (hrad rfl)
        refine ih _ true _ _ ?_ ?_ ?_ hg
        · intro _
          simp only [grow, radius]
          linarith
        · intro o' ho'
          rw [allObjects_grow, allObjects_node, ← allObjects_node mid0 R0] at ho'
          exact hnn o' ho'
        · have hcopy : Contained (node (initMidPoint mid0 R0 o) (initRadius R0 o) nodes objs n) := by
            rw [Contained_node]
            refine ⟨?_, hkids⟩
            intro o' ho'
            rw [allObjects_node, ← allObjects_node mid0 R0] at ho'
            exact hold o' ho'
          unfold grow
          simp only
          rw [Contained_node]
          refine ⟨?_, Contained_update (fun i => by simp [noNodes, Contained]) _ hcopy⟩
          intro o' ho'
          rw [allObjects_update_null _ _ _ _ _ _ _ rfl] at ho'
          simp only [noNodes, allObjects, Finset.sum_const_zero, Multiset.coe_nil, zero_add] at ho'
          rw [← allObjects_node mid0 R0 nodes objs n] at ho'
          exact strictlyInside_grow (hold o' ho') hR _

end Octree
namespace Octree

theorem initRadius_of_ne {R0 : ℚ} (o : iObject) (h : R0 ≠ 0) : initRadius R0 o = R0 := by
  simp [initRadius, h]

theorem initMidPoint_of_ne {R0 : ℚ} (mid0 : Vector) (o : iObject) (h : R0 ≠ 0) :
    initMidPoint mid0 R0 o = mid0 := by
  simp [initMidPoint, h]

theorem initRadius_pos {R0 : ℚ} {o : iObject} (ho : 0 ≤ o.getRadius) (hR : 0 ≤ R0) :
    0 < initRadius R0 o := by
  unfold initRadius
  split_ifs with h1 h2
  · rw [h2]; norm_num
  · exact lt_of_le_of_ne ho (Ne.symm h2)
  · exact lt_of_le_of_ne hR (Ne.symm h1)

theorem initRadius_ne_zero (R0 : ℚ) (o : iObject) : initRadius R0 o ≠ 0 := by
  unfold initRadius
  split_ifs with h1 h2
  · rw [h2]; norm_num
  · exact h2
  · exact h1

/-- Lines 223-231 are idempotent: running `Add` on the initialised node is the same. -/
theorem Add_init (m : ℚ) (fuel : Nat) (mid0 : Vector) (R0 : ℚ) (nodes : Fin 8 → Octree)
    (objs : List iObject) (n : Int) (o : iObject) (top : Bool) :
    Add m fuel (node mid0 R0 nodes objs n) o top =
      Add m fuel (node (initMidPoint mid0 R0 o) (initRadius R0 o) nodes objs n) o top := by
  cases fuel with
  | zero => simp [Add]
  | succ fuel =>
    rw [Add, Add]
    simp only [initRadius_of_ne o (initRadius_ne_zero R0 o),
      initMidPoint_of_ne _ o (initRadius_ne_zero R0 o)]

/-- When the object fits, the top-level flag plays no role. -/
theorem Add_top_of_fits {m : ℚ} {fuel : Nat} {mid0 : Vector} {R0 : ℚ} {nodes : Fin 8 → Octree}
    {objs : List iObject} {n : Int} {o : iObject}
    (hin : checkObjectWithinNode (initMidPoint mid0 R0 o) (initRadius R0 o) o.position
      o.getRadius = true) (top : Bool) :
    Add m fuel (node mid0 R0 nodes objs n) o top =
      Add m fuel (node mid0 R0 nodes objs n) o false := by
  cases fuel with
  | zero => simp [Add]
  | succ fuel =>
    rw [Add, Add]
    simp only [hin, if_true]

/-- Descent into freshly created children ends: their radius halves until it is below
`MINIMUM_NODE_RADIUS`. -/
theorem Add_fresh_terminates (m : ℚ) (o : iObject) :
    ∀ (k : Nat) (mid : Vector) (R : ℚ), 0 < R → R < m * 2 ^ k →
      ∃ r, Add m (k + 1) (mkNode mid R) o false = some r := by
  intro k
  induction k with
  | zero =>
    intro mid R hR hlt
    have hne : R ≠ 0 := ne_of_gt hR
    by_cases hin : checkObjectWithinNode (initMidPoint mid R o) (initRadius R o) o.position
        o.getRadius = true
    · refine ⟨_, Add_intro_small hin rfl ?_⟩
      rw [initRadius_of_ne o hne]
      simp at hlt
      linarith
    · exact ⟨_, Add_intro_reject (by simpa using hin)⟩
  | succ k ih =>
    intro mid R hR hlt
    have hne : R ≠ 0 := ne_of_gt hR
    by_cases hin : checkObjectWithinNode (initMidPoint mid R o) (initRadius R o) o.position
        o.getRadius = true
    · by_cases hs : initRadius R o / 2 < m
      · exact ⟨_, Add_intro_small hin rfl hs⟩
      · have hR2 : 0 < initRadius R o / 2 := by rw [initRadius_of_ne o hne]; linarith
        have hlt2 : initRadius R o / 2 < m * 2 ^ k := by
          rw [initRadius_of_ne o hne]
          rw [pow_succ] at hlt
          linarith
        obtain ⟨⟨b, c⟩, hr⟩ := ih (((cubeCorners (cornerIndexGe (o.position.sub
          (initMidPoint mid R o)))).scale (initRadius R o / 2)).add (initMidPoint mid R o))
          _ hR2 hlt2
        cases b with
        | true => exact ⟨_, Add_intro_new_true hin rfl hs hr⟩
        | false => exact ⟨_, Add_intro_new_false hin rfl hs hr⟩
    · exact ⟨_, Add_intro_reject (by simpa using hin)⟩

/-- A non-top-level `Add` always returns. -/
theorem Add_descent_terminates (m : ℚ) (hm : 0 < m) (o : iObject) :
    ∀ t : Octree, t ≠ null → ∃ N r, Add m N t o false = some r := by
  intro t
  induction t with
  | null => intro h; exact absurd rfl h
  | node mid0 R0 nodes objs n ih =>
    intro _
    by_cases hin : checkObjectWithinNode (initMidPoint mid0 R0 o) (initRadius R0 o) o.position
        o.getRadius = true
    · by_cases hnull : nodes (cornerIndexGe (o.position.sub (initMidPoint mid0 R0 o))) = null
      · by_cases hs : initRadius R0 o / 2 < m
        · exact ⟨1, _, Add_intro_small hin hnull hs⟩
        · have hR2 : 0 < initRadius R0 o / 2 := lt_of_lt_of_le hm (not_lt.mp hs)
          obtain ⟨k, hk⟩ := pow_unbounded_of_one_lt (initRadius R0 o / 2 / m)
            (by norm_num : (1 : ℚ) < 2)
          have hlt : initRadius R0 o / 2 < m * 2 ^ k := by
            rw [div_lt_iff₀ hm] at hk
            linarith
          obtain ⟨⟨b, c⟩, hr⟩ := Add_fresh_terminates m o k (((cubeCorners (cornerIndexGe
            (o.position.sub (initMidPoint mid0 R0 o)))).scale (initRadius R0 o / 2)).add
            (initMidPoint mid0 R0 o)) _ hR2 hlt
          cases b with
          | true => exact ⟨_, _, Add_intro_new_true hin hnull hs hr⟩
          | false => exact ⟨_, _, Add_intro_new_false hin hnull hs hr⟩
      · obtain ⟨N, ⟨b, c⟩, hr⟩ := ih _ hnull
        cases b with
        | true => exact ⟨_, _, Add_intro_old_true hin hnull hr⟩
        | false => exact ⟨_, _, Add_intro_old_false hin hnull hr⟩
    · exact ⟨1, _, Add_intro_reject (by simpa using hin)⟩

theorem AxisNear_step {B R d : ℚ} (hR : 0 ≤ R) (h : AxisNear B R d) :
    AxisNear B (R * 2) (d - (if d ≥ 0 then 1 else -1) * R) := by
  unfold AxisNear at *
  by_cases hd : d ≥ 0
  · simp only [hd, if_true]
    by_cases hdR : d ≤ R
    · right; constructor <;> linarith
    · push_neg at hdR
      rcases h with h | h
      · left; constructor <;> linarith
      · right; constructor <;> linarith
  · simp only [hd, if_false]
    push_neg at hd
    by_cases hdR : -R ≤ d
    · right; constructor <;> linarith
    · push_neg at hdR
      rcases h with h | h
      · left; constructor <;> linarith
      · right; constructor <;> linarith

theorem AxisNear_fits {B R d r : ℚ} (h : AxisNear B R d) (h1 : B + r < R)
    (h2 : 2 * r < R) : -R < d - r ∧ d + r < R := by
  rcases h with h | h <;> constructor <;> linarith

theorem cubeCorners_cornerIndexGe_x (v : Vector) :
    (cubeCorners (cornerIndexGe v)).x = if v.x ≥ 0 then 1 else -1 := by
  rw [cubeCorners_cornerIndexGe]; rfl

theorem cubeCorners_cornerIndexGe_y (v : Vector) :
    (cubeCorners (cornerIndexGe v)).y = if v.y ≥ 0 then 1 else -1 := by
  rw [cubeCorners_cornerIndexGe]; rfl

theorem cubeCorners_cornerIndexGe_z (v : Vector) :
    (cubeCorners (cornerIndexGe v)).z = if v.z ≥ 0 then 1 else -1 := by
  rw [cubeCorners_cornerIndexGe]; rfl

theorem Near_step {B R : ℚ} {mid p : Vector} (hR : 0 ≤ R) (h : Near B R mid p) :
    Near B (R * 2) (((cubeCorners (cornerIndexGe (p.sub mid))).scale R).add mid) p := by
  obtain ⟨hx, hy, hz⟩ := h
  have ex := AxisNear_step hR hx
  have ey := AxisNear_step hR hy
  have ez := AxisNear_step hR hz
  refine ⟨?_, ?_, ?_⟩
  · simp only [Vector.add, Vector.scale, cubeCorners_cornerIndexGe_x, Vector.sub]
    convert ex using 1; ring
  · simp only [Vector.add, Vector.scale, cubeCorners_cornerIndexGe_y, Vector.sub]
    convert ey using 1; ring
  · simp only [Vector.add, Vector.scale, cubeCorners_cornerIndexGe_z, Vector.sub]
    convert ez using 1; ring

theorem Near_fits {B R : ℚ} {mid : Vector} {o : iObject} (h : Near B R mid o.position)
    (h1 : B + o.getRadius < R) (h2 : 2 * o.getRadius < R) :
    StrictlyInside mid R o := by
  obtain ⟨hx, hy, hz⟩ := h
  have ex := AxisNear_fits hx h1 h2
  have ey := AxisNear_fits hy h1 h2
  have ez := AxisNear_fits hz h1 h2
  refine ⟨⟨?_, ?_⟩, ⟨?_, ?_⟩, ?_, ?_⟩ <;> linarith [ex.1, ex.2, ey.1, ey.2, ez.1, ez.2]

/-- Root growth ends: after at most `k` doublings the object fits, and the descent that
follows returns. -/
theorem Add_grow_terminates (m : ℚ) (hm : 0 < m) (o : iObject) (B : ℚ) :
    ∀ (k : Nat) (mid : Vector) (R : ℚ) (nodes : Fin 8 → Octree) (objs : List iObject)
      (n : Int), 0 < R → Near B R mid o.position →
      B + o.getRadius < R * 2 ^ k → 2 * o.getRadius < R * 2 ^ k →
      ∃ N t', Add m N (node mid R nodes objs n) o true = some (true, t') := by
  intro k
  induction k with
  | zero =>
    intro mid R nodes objs n hR hnear h1 h2
    have hne : R ≠ 0 := ne_of_gt hR
    simp only [pow_zero, mul_one] at h1 h2
    have hin : checkObjectWithinNode (initMidPoint mid R o) (initRadius R o) o.position
        o.getRadius = true := by
      rw [check_iff, initRadius_of_ne o hne, initMidPoint_of_ne _ o hne]
      exact Near_fits hnear h1 h2
    obtain ⟨N, ⟨b, t'⟩, hr⟩ := Add_descent_terminates m hm o (node mid R nodes objs n)
      (by simp)
    cases N with
    | zero => simp [Add] at hr
    | succ N =>
      have hb : b = true := by
        rcases Add_node_cases hr with ⟨-, hb, -⟩ | ⟨hin', -⟩ | ⟨hin', -⟩
        · exact hb
        · rw [hin] at hin'; exact absurd hin' (by simp)
        · rw [hin] at hin'; exact absurd hin' (by simp)
      subst hb
      exact ⟨N + 1, t', by rw [Add_top_of_fits hin]; exact hr⟩
  | succ k ih =>
    intro mid R nodes objs n hR hnear h1 h2
    have hne : R ≠ 0 := ne_of_gt hR
    by_cases hin : checkObjectWithinNode (initMidPoint mid R o) (initRadius R o) o.position
        o.getRadius = true
    · obtain ⟨N, ⟨b, t'⟩, hr⟩ := Add_descent_terminates m hm o (node mid R nodes objs n)
        (by simp)
      cases N with
      | zero => simp [Add] at hr
      | succ N =>
        have hb : b = true := by
          rcases Add_node_cases hr with ⟨-, hb, -⟩ | ⟨hin', -⟩ | ⟨hin', -⟩
          · exact hb
          · rw [hin] at hin'; exact absurd hin' (by simp)
          · rw [hin] at hin'; exact absurd hin' (by simp)
        subst hb
        exact ⟨N + 1, t', by rw [Add_top_of_fits hin]; exact hr⟩
    · have hin' : checkObjectWithinNode (initMidPoint mid R o) (initRadius R o) o.position
          o.getRadius = false := by simpa using hin
      have hstep := Near_step (le_of_lt hR) hnear
      rw [pow_succ] at h1 h2
      obtain ⟨N, t', hr⟩ := ih (((cubeCorners (cornerIndexGe (o.position.sub mid))).scale
        R).add mid) (R * 2)
        (Function.update noNodes (cornerIndexGt ((o.position.sub mid).scale (-1)))
          (node mid R nodes objs n)) [] (0 + 1) (by linarith) hstep (by linarith)
        (by linarith)
      refine ⟨N + 1, t', ?_⟩
      rw [Add_intro_grow hin', initRadius_of_ne o hne, initMidPoint_of_ne _ o hne]
      exact hr

end Octree
namespace Octree

/-- The top-level `Add` returns `true` on every root of radius `>= 0`, for every amount of
fuel from some point on. -/
theorem Add_terminates (m : ℚ) (hm : 0 < m) (o : iObject) (ho : 0 ≤ o.getRadius)
    (mid0 : Vector) (R0 : ℚ) (nodes : Fin 8 → Octree) (objs : List iObject) (n : Int)
    (hR0 : 0 ≤ R0) :
    ∃ N t', ∀ fuel, N ≤ fuel →
      Add m fuel (node mid0 R0 nodes objs n) o true = some (true, t') := by
  have hR := initRadius_pos (o := o) ho hR0
  obtain ⟨k, hk⟩ := pow_unbounded_of_one_lt
    (((|o.position.x - (initMidPoint mid0 R0 o).x| + |o.position.y - (initMidPoint mid0 R0 o).y|
      + |o.position.z - (initMidPoint mid0 R0 o).z|) + 3 * o.getRadius) / initRadius R0 o)
    (by norm_num : (1 : ℚ) < 2)
  rw [div_lt_iff₀ hR] at hk
  have hx := abs_nonneg (o.position.x - (initMidPoint mid0 R0 o).x)
  have hy := abs_nonneg (o.position.y - (initMidPoint mid0 R0 o).y)
  have hz := abs_nonneg (o.position.z - (initMidPoint mid0 R0 o).z)
  have hnear : Near (|o.position.x - (initMidPoint mid0 R0 o).x|
      + |o.position.y - (initMidPoint mid0 R0 o).y|
      + |o.position.z - (initMidPoint mid0 R0 o).z|) (initRadius R0 o)
      (initMidPoint mid0 R0 o) o.position := by
    refine ⟨Or.inl ⟨?_, ?_⟩, Or.inl ⟨?_, ?_⟩, Or.inl ⟨?_, ?_⟩⟩
    · linarith [neg_abs_le (o.position.x - (initMidPoint mid0 R0 o).x)]
    · linarith [le_abs_self (o.position.x - (initMidPoint mid0 R0 o).x)]
    · linarith [neg_abs_le (o.position.y - (initMidPoint mid0 R0 o).y)]
    · linarith [le_abs_self (o.position.y - (initMidPoint mid0 R0 o).y)]
    · linarith [neg_abs_le (o.position.z - (initMidPoint mid0 R0 o).z)]
    · linarith [le_abs_self (o.position.z - (initMidPoint mid0 R0 o).z)]
  obtain ⟨N, t', hr⟩ := Add_grow_terminates m hm o _ k (initMidPoint mid0 R0 o)
    (initRadius R0 o) nodes objs n hR hnear (by linarith) (by linarith)
  refine ⟨N, t', fun fuel hle => ?_⟩
  rw [Add_init]
  exact Add_mono_le m o hle _ _ _ hr

/-- The result of `Add` is a node, and a root of radius `>= 0` keeps a radius `>= 0`. -/
theorem Add_result_node (m : ℚ) (o : iObject) (ho : 0 ≤ o.getRadius) :
    ∀ (fuel : Nat) (t : Octree) (top b : Bool) (t' : Octree),
      Add m fuel t o top = some (b, t') →
      t' ≠ null ∧ (0 ≤ radius t → 0 < radius t') := by
  intro fuel
  induction fuel with
  | zero => intro t top b t' h; simp [Add] at h
  | succ fuel ih =>
    intro t top b t' h
    cases t with
    | null => simp [Add] at h
    | node mid0 R0 nodes objs n =>
      have hpos : 0 ≤ R0 → 0 < initRadius R0 o := fun hR => initRadius_pos ho hR
      rcases Add_node_cases h with ⟨-, -, hc⟩ | ⟨-, -, -, ht⟩ | ⟨-, -, hg⟩
      · rcases hc with ⟨-, -, ht⟩ | ⟨-, -, c, -, ht⟩ | ⟨-, -, c, -, ht⟩ |
          ⟨-, c, -, ht⟩ | ⟨-, c, -, ht⟩ <;>
        · subst ht
          exact ⟨by simp, fun hR => hpos hR⟩
      · subst ht
        exact ⟨by simp, fun hR => hpos hR⟩
      · obtain ⟨h1, h2⟩ := ih _ _ _ _ hg
        refine ⟨h1, fun hR => h2 ?_⟩
        have := hpos hR
        simp only [grow, radius]
        linarith

end Octree
namespace Octree

/-- A top-level `Add` never reports failure. -/
theorem Add_top_true (m : ℚ) (o : iObject) :
    ∀ (fuel : Nat) (t : Octree) (b : Bool) (t' : Octree),
      Add m fuel t o true = some (b, t') → b = true := by
  intro fuel
  induction fuel with
  | zero => intro t b t' h; simp [Add] at h
  | succ fuel ih =>
    intro t b t' h
    cases t with
    | null => simp [Add] at h
    | node mid0 R0 nodes objs n =>
      rcases Add_node_cases h with ⟨-, hb, -⟩ | ⟨-, htop, -⟩ | ⟨-, -, hg⟩
      · exact hb
      · exact absurd htop (by simp)
      · exact ih _ _ _ hg

theorem AddTop_eq_some {m : ℚ} {fuel : Nat} {t : Octree} {o : iObject} {t' : Octree} :
    AddTop m fuel t o = some t' ↔ Add m fuel t o true = some (true, t') := by
  unfold AddTop
  constructor
  · intro h
    cases hr : Add m fuel t o true with
    | none => rw [hr] at h; simp at h
    | some r =>
      obtain ⟨b, t1⟩ := r
      rw [hr] at h
      simp only [Option.map_some', Option.some.injEq] at h
      subst h
      rw [Add_top_true m o _ _ _ _ hr]
  · intro h
    rw [h]; rfl

theorem Contained_empty : Contained empty := by
  rw [empty, Contained_node]
  refine ⟨?_, fun i => by simp [noNodes, Contained]⟩
  intro o ho
  simp [allObjects_node, noNodes, allObjects] at ho

theorem allObjects_empty : allObjects empty = 0 := by
  simp [empty, allObjects_node, noNodes, allObjects]

/-- What a sequence of public `Add` calls preserves and produces. -/
theorem addAll_invariants (m : ℚ) (fuel : Nat) :
    ∀ (os : List iObject), (∀ o ∈ os, 0 ≤ o.getRadius) →
    ∀ (t t' : Octree), 0 ≤ radius t → (∀ o' ∈ allObjects t, 0 ≤ o'.getRadius) →
      Contained t → addAll m fuel os t = some t' →
      Contained t' ∧ allObjects t' = allObjects t + (os : Multiset iObject) ∧
        0 ≤ radius t' ∧ (t ≠ null → t' ≠ null) := by
  intro os
  induction os with
  | nil =>
    intro _ t t' hR _ hC h
    simp only [addAll, Option.some.injEq] at h
    subst h
    exact ⟨hC, by simp, hR, fun h => h⟩
  | cons o os ih =>
    intro hos t t' hR hnn hC h
    have ho : 0 ≤ o.getRadius := hos o (List.mem_cons_self _ _)
    rw [addAll] at h
    cases h1 : AddTop m fuel t o with
    | none => rw [h1] at h; simp at h
    | some t1 =>
      rw [h1] at h
      simp only at h
      rw [AddTop_eq_some] at h1
      have hC1 := Add_contained m o ho _ _ _ _ _ (fun _ => hR) hnn hC h1
      have hA1 := Add_allObjects m o _ _ _ _ _ h1
      rw [if_pos rfl] at hA1
      obtain ⟨hn1, hR1⟩ := Add_result_node m o ho _ _ _ _ _ h1
      have hnn1 : ∀ o' ∈ allObjects t1, 0 ≤ o'.getRadius := by
        intro o' ho'
        rw [hA1, Multiset.mem_add, Multiset.mem_singleton] at ho'
        rcases ho' with ho' | ho'
        · exact hnn o' ho'
        · rw [ho']; exact ho
      obtain ⟨hC', hA', hR', hn'⟩ := ih (fun o' ho' => hos o' (List.mem_cons_of_mem _ ho'))
        t1 t' (le_of_lt (hR1 hR)) hnn1 hC1 h
      refine ⟨hC', ?_, hR', fun _ => hn' hn1⟩
      rw [hA', hA1, add_assoc, Multiset.singleton_add, Multiset.cons_coe]

/-- A sequence of public `Add` calls returns, for every amount of fuel from some point on. -/
theorem addAll_terminates (m : ℚ) (hm : 0 < m) :
    ∀ (os : List iObject), (∀ o ∈ os, 0 ≤ o.getRadius) →
    ∀ (t : Octree), t ≠ null → 0 ≤ radius t →
      ∃ N t', ∀ fuel, N ≤ fuel → addAll m fuel os t = some t' := by
  intro os
  induction os with
  | nil => intro _ t _ _; exact ⟨0, t, fun _ _ => rfl⟩
  | cons o os ih =>
    intro hos t hn hR
    have ho : 0 ≤ o.getRadius := hos o (List.mem_cons_self _ _)
    cases t with
    | null => exact absurd rfl hn
    | node mid0 R0 nodes objs n =>
      obtain ⟨N1, t1, h1⟩ := Add_terminates m hm o ho mid0 R0 nodes objs n hR
      obtain ⟨hn1, hR1⟩ := Add_result_node m o ho _ _ _ _ _ (h1 N1 (le_refl _))
      obtain ⟨N2, t2, h2⟩ := ih (fun o' ho' => hos o' (List.mem_cons_of_mem _ ho')) t1 hn1
        (le_of_lt (hR1 hR))
      refine ⟨max N1 N2, t2, fun fuel hle => ?_⟩
      rw [addAll, AddTop_eq_some.mpr (h1 fuel (le_trans (le_max_left _ _) hle))]
      exact h2 fuel (le_trans (le_max_right _ _) hle)

end Octree

/-! ## Insertion: the claims -/

namespace Octree

/-- C2, amended: in exact arithmetic, in every tree obtained from the empty tree by a
sequence of `Add` calls with objects of radius `>= 0` (`MINIMUM_NODE_RADIUS > 0`; the calls
return), at every node the bounding box of every object stored in the node or below it
lies strictly inside the node's cube on every axis; in particular the root encloses every
inserted object. -/
theorem C2_containment_invariant (m : ℚ) (hm : 0 < m) (os : List iObject)
    (hos : ∀ o ∈ os, 0 ≤ o.getRadius) :
    (∃ N t, ∀ fuel, N ≤ fuel → addAll m fuel os empty = some t) ∧
    (∀ fuel t, addAll m fuel os empty = some t →
      Contained t ∧ ∀ o ∈ os, StrictlyInside (midPoint t) (radius t) o) := by
  refine ⟨addAll_terminates m hm os hos empty (by simp [empty]) (by simp [empty, radius]),
    ?_⟩
  intro fuel t h
  obtain ⟨hC, hA, -, hn⟩ := addAll_invariants m fuel os hos empty t
    (by simp [empty, radius]) (by simp [allObjects_empty]) Contained_empty h
  refine ⟨hC, ?_⟩
  intro o ho
  cases t with
  | null => exact absurd rfl (hn (by simp [empty]))
  | node mid R nodes objs n =>
    rw [Contained_node] at hC
    apply hC.1
    rw [hA, allObjects_empty, zero_add]
    exact ho

/-- Witness for the amended C2: the three-object scenario with `MINIMUM_NODE_RADIUS = 1`,
in which no operation rounds. -/
theorem C2_containment_invariant_witness :
    ∃ t, addAll 1 20 threeObjects empty = some t ∧ Contained t ∧
      ∀ o ∈ threeObjects, StrictlyInside (midPoint t) (radius t) o := by
  obtain ⟨t, h⟩ := Option.isSome_iff_exists.mp
    (show (addAll 1 20 threeObjects empty).isSome = true by decide!)
  exact ⟨t, h, (C2_containment_invariant 1 (by norm_num) threeObjects (by decide!)).2 20 t h⟩

/-- The root after a top-level `Add` strictly contains the object, and its radius is the
initialised radius doubled some number of times. -/
theorem Add_top_inside (m : ℚ) (o : iObject) :
    ∀ (fuel : Nat) (mid0 : Vector) (R0 : ℚ) (nodes : Fin 8 → Octree) (objs : List iObject)
      (n : Int) (b : Bool) (t' : Octree),
      Add m fuel (node mid0 R0 nodes objs n) o true = some (b, t') →
      StrictlyInside (midPoint t') (radius t') o ∧
        ∃ k : Nat, radius t' = initRadius R0 o * 2 ^ k := by
  intro fuel
  induction fuel with
  | zero => intro mid0 R0 nodes objs n b t' h; simp [Add] at h
  | succ fuel ih =>
    intro mid0 R0 nodes objs n b t' h
    rcases Add_node_cases h with ⟨hin, -, hc⟩ | ⟨-, htop, -⟩ | ⟨-, -, hg⟩
    · rw [check_iff] at hin
      rcases hc with ⟨-, -, ht⟩ | ⟨-, -, c, -, ht⟩ | ⟨-, -, c, -, ht⟩ |
        ⟨-, c, -, ht⟩ | ⟨-, c, -, ht⟩ <;>
      · subst ht
        exact ⟨hin, 0, by simp [radius]⟩
    · exact absurd htop (by simp)
    · unfold grow at hg
      simp only at hg
      obtain ⟨h1, k, hk⟩ := ih _ _ _ _ _ _ _ hg
      refine ⟨h1, k + 1, ?_⟩
      have hne : initRadius R0 o * 2 ≠ 0 := by
        intro e
        exact initRadius_ne_zero R0 o (by linarith)
      rw [hk, initRadius_of_ne o hne, pow_succ]
      ring

/-- C3: for a root of radius `>= 0`, an object of radius `>= 0` and
`MINIMUM_NODE_RADIUS > 0` (exact arithmetic), the top-level call `Add(object, true)`
returns `true`: some number of nested calls is enough and every larger number gives the
same tree; the root of that tree has the initialised radius doubled finitely many times,
its cube strictly contains the object, and the tree stores the objects it stored before
plus the new object once. -/
theorem C3_Add_returns_true (m : ℚ) (hm : 0 < m) (mid0 : Vector) (R0 : ℚ)
    (nodes : Fin 8 → Octree) (objs : List iObject) (n : Int) (o : iObject)
    (hR0 : 0 ≤ R0) (ho : 0 ≤ o.getRadius) :
    ∃ N t', (∀ fuel, N ≤ fuel →
        Add m fuel (node mid0 R0 nodes objs n) o true = some (true, t')) ∧
      StrictlyInside (midPoint t') (radius t') o ∧
      (∃ k : Nat, radius t' = initRadius R0 o * 2 ^ k) ∧
      allObjects t' = allObjects (node mid0 R0 nodes objs n) + {o} := by
  obtain ⟨N, t', h⟩ := Add_terminates m hm o ho mid0 R0 nodes objs n hR0
  obtain ⟨h1, h2⟩ := Add_top_inside m o N mid0 R0 nodes objs n true t' (h N (le_refl N))
  have h3 := Add_allObjects m o _ _ _ _ _ (h N (le_refl N))
  rw [if_pos rfl] at h3
  exact ⟨N, t', h, h1, h2, h3⟩

/-- Witness for C3: `Add` of `objB` into the empty tree, which grows the root. -/
theorem C3_Add_returns_true_witness :
    (∃ N t', (∀ fuel, N ≤ fuel → Add 1 fuel empty objB true = some (true, t')) ∧
      StrictlyInside (midPoint t') (radius t') objB ∧
      (∃ k : Nat, radius t' = initRadius 0 objB * 2 ^ k) ∧
      allObjects t' = allObjects empty + {objB}) ∧
      (Add 1 12 empty objB true).map (fun r => (r.1, radius r.2)) = some (true, 4) :=
  ⟨C3_Add_returns_true 1 (by norm_num) ⟨0, 0, 0⟩ 0 noNodes [] 0 objB (le_refl 0) (by decide!),
    by decide!⟩

end Octree

/-! ## Visibility against brute force -/

namespace Octree

theorem strictlyInside_position {midPoint : Vector} {radius : ℚ} {o : iObject}
    (h : StrictlyInside midPoint radius o) (ho : 0 ≤ o.getRadius) :
    (midPoint.x - radius ≤ o.position.x ∧ o.position.x ≤ midPoint.x + radius) ∧
    (midPoint.y - radius ≤ o.position.y ∧ o.position.y ≤ midPoint.y + radius) ∧
    (midPoint.z - radius ≤ o.position.z ∧ o.position.z ≤ midPoint.z + radius) := by
  obtain ⟨⟨h1, h2⟩, ⟨h3, h4⟩, h5, h6⟩ := h
  refine ⟨⟨?_, ?_⟩, ⟨?_, ?_⟩, ?_, ?_⟩ <;> linarith

theorem mem_flatten_iff (t : Octree) (o : iObject) : o ∈ flatten t ↔ o ∈ allObjects t := by
  rw [← coe_flatten, Multiset.mem_coe]

theorem filter_foldl_eq {α : Type} (c : iObject → Bool) (g : List iObject → α → List iObject)
    (h : α → List iObject) (l : List α)
    (hg : ∀ i ∈ l, ∀ out, (g out i).filter c = out.filter c ++ (h i).filter c)
    (out : List iObject) :
    (l.foldl g out).filter c = out.filter c ++ (l.flatMap h).filter c := by
  induction l generalizing out with
  | nil => simp
  | cons a l ih =>
    rw [List.foldl_cons, ih (fun i hi => hg i (List.mem_cons_of_mem a hi)),
      hg a (List.mem_cons_self a l)]
    simp [List.flatMap_cons, List.append_assoc]

theorem containsNode_cases (f : ViewingFrustum) (pos : Vector) (R : ℚ) :
    f.containsNode pos R = 0 ∨ f.containsNode pos R = 1 ∨ f.containsNode pos R = 2 := by
  unfold ViewingFrustum.containsNode
  simp only
  split_ifs <;> simp

/-- Filtering the output of the traversal by the point test gives the objects of the tree
that pass the point test: pruning drops none of them. -/
theorem calcVisibility_filter (f : ViewingFrustum) (t : Octree) :
    Contained t → (∀ o ∈ allObjects t, 0 ≤ o.getRadius) → ∀ (skip : Bool) (out : List iObject),
      (calcVisibility f f.containsObject t skip out).filter f.containsObject =
        out.filter f.containsObject ++ (flatten t).filter f.containsObject := by
  induction t with
  | null => intro _ _ skip out; simp [calcVisibility, flatten]
  | node mid R nodes objs n ih =>
    intro hC hnn skip out
    rw [Contained_node] at hC
    obtain ⟨hin, hkids⟩ := hC
    have hkidnn : ∀ i, ∀ o' ∈ allObjects (nodes i), 0 ≤ o'.getRadius :=
      fun i o' ho' => hnn o' (Multiset.mem_of_le (allObjects_child_le _ _ _ _ _ i) ho')
    cases skip with
    | true => rw [calcVisibility_skip, List.filter_append]
    | false =>
      rcases containsNode_cases f mid R with h0 | h1 | h2
      · rw [calcVisibility_node_outside _ _ _ _ _ _ _ _ h0]
        have : (flatten (node mid R nodes objs n)).filter f.containsObject = [] := by
          rw [List.filter_eq_nil_iff]
          intro o ho
          rw [mem_flatten_iff] at ho
          have hs := hin o ho
          have hr := hnn o ho
          have hR : 0 ≤ R := le_of_lt (strictlyInside_radius_pos hs hr)
          obtain ⟨hx, hy, hz⟩ := strictlyInside_position hs hr
          simp [ViewingFrustum.containsObject_false_of_outside f mid R hR h0 o hx hy hz]
        rw [this, List.append_nil]
      · rw [calcVisibility_node_partly _ _ _ _ _ _ _ _ h1,
          filter_foldl_eq _ _ (fun i => flatten (nodes i)) _
            (fun i _ out => ih i (hkids i) (hkidnn i) false out)]
        simp [flatten, List.filter_append, List.filter_filter, List.append_assoc]
      · rw [calcVisibility_node_inside _ _ _ _ _ _ _ _ h2,
          filter_foldl_eq _ _ (fun i => flatten (nodes i)) _
            (fun i _ out => ih i (hkids i) (hkidnn i) true out)]
        simp [flatten, List.filter_append, List.append_assoc]

/-- C5, amended: in exact arithmetic, for a tree built from the empty tree by `Add` calls
with objects of radius `>= 0` and every frustum, with the point test as the per-object
test, the objects appended by
`calcVisibility` that pass the test are exactly the inserted objects that pass it:
pruning by `containsNode` drops no object that passes the per-object test. -/
theorem C5_visibility_vs_brute_force (m : ℚ) (hm : 0 < m) (os : List iObject)
    (hos : ∀ o ∈ os, 0 ≤ o.getRadius) (f : ViewingFrustum) :
    (∃ N t, ∀ fuel, N ≤ fuel → addAll m fuel os empty = some t) ∧
    (∀ fuel t, addAll m fuel os empty = some t →
      (((calcVisibility f f.containsObject t false []).filter f.containsObject :
          List iObject) : Multiset iObject) =
        ((os.filter f.containsObject : List iObject) : Multiset iObject)) := by
  refine ⟨addAll_terminates m hm os hos empty (by simp [empty]) (by simp [empty, radius]),
    ?_⟩
  intro fuel t h
  obtain ⟨hC, hA, -, -⟩ := addAll_invariants m fuel os hos empty t
    (by simp [empty, radius]) (by simp [allObjects_empty]) Contained_empty h
  rw [allObjects_empty, zero_add] at hA
  have hnn : ∀ o ∈ allObjects t, 0 ≤ o.getRadius := by
    intro o ho
    rw [hA] at ho
    exact hos o ho
  rw [calcVisibility_filter f t hC hnn false [], List.filter_nil, List.nil_append]
  have hp : (flatten t).Perm os := Multiset.coe_eq_coe.mp (by rw [coe_flatten, hA])
  exact Multiset.coe_eq_coe.mpr (hp.filter _)

/-- Witness for the amended C5: the three-object scenario under `boxFrustum`. -/
theorem C5_visibility_vs_brute_force_witness :
    ∃ t, addAll 1 20 threeObjects empty = some t ∧
      (((calcVisibility boxFrustum boxFrustum.containsObject t false []).filter
          boxFrustum.containsObject : List iObject) : Multiset iObject) =
        ((threeObjects.filter boxFrustum.containsObject : List iObject) :
          Multiset iObject) := by
  obtain ⟨t, h⟩ := Option.isSome_iff_exists.mp
    (show (addAll 1 20 threeObjects empty).isSome = true by decide!)
  exact ⟨t, h, (C5_visibility_vs_brute_force 1 (by norm_num) threeObjects (by decide!)
    boxFrustum).2 20 t h⟩

end Octree

/-! ## Removal -/

namespace Octree

/-- The number of child slots that are not `NULL`. -/
theorem card_eq_sum (nodes : Fin 8 → Octree) :
    ((Finset.univ.filter (fun i => isNull (nodes i) = false)).card : Int) =
      Finset.univ.sum (fun i => if isNull (nodes i) = false then (1 : Int) else 0) := by
  rw [Finset.card_filter]
  push_cast
  rfl

theorem countOK_node (midPoint : Vector) (radius : ℚ) (nodes : Fin 8 → Octree)
    (objs : List iObject) (numNodes : Int) :
    countOK (node midPoint radius nodes objs numNodes) = true ↔
      numNodes = Finset.univ.sum (fun i => if isNull (nodes i) = false then (1 : Int) else 0) ∧
      ∀ i, countOK (nodes i) = true := by
  rw [countOK, card_eq_sum]
  simp

theorem isNull_eq_true {t : Octree} : isNull t = true ↔ t = null := by
  cases t <;> simp [isNull]

theorem isNull_eq_false {t : Octree} : isNull t = false ↔ t ≠ null := by
  cases t <;> simp [isNull]

/-- Under the child-count invariant, a node that `isEmpty` accepts stores no object. -/
theorem allObjects_of_isEmpty {c : Octree} (hc : countOK c = true) (he : isEmpty c = true) :
    allObjects c = 0 := by
  cases c with
  | null => simp [allObjects]
  | node mid R nodes objs n =>
    rw [countOK_node] at hc
    obtain ⟨hn, -⟩ := hc
    simp only [isEmpty, ne_eq, decide_not, Bool.not_not, Bool.and_eq_true, decide_eq_true_eq,
      ite_eq_left_iff, not_and, Bool.false_eq_true, imp_false, Classical.not_imp,
      Decidable.not_not] at he
    obtain ⟨hl, hz⟩ := he
    rw [hz] at hn
    have hall : ∀ i, isNull (nodes i) = true := by
      intro i
      by_contra hne
      have hne' : isNull (nodes i) = false := by simpa using hne
      have hpos : (0 : Int) < Finset.univ.sum
          (fun i => if isNull (nodes i) = false then (1 : Int) else 0) := by
        apply Finset.sum_pos'
        · intro j _; split_ifs <;> norm_num
        · exact ⟨i, Finset.mem_univ i, by simp [hne']⟩
      rw [← hn] at hpos
      exact lt_irrefl _ hpos
    rw [allObjects_node, List.length_eq_zero.mp hl]
    simp only [Multiset.coe_nil, zero_add]
    apply Finset.sum_eq_zero
    intro i _
    rw [isNull_eq_true.mp (hall i), allObjects]

theorem nodeAt_lt (nodes : Fin 8 → Octree) {ci : Nat} (h : ci < 8) :
    nodeAt nodes ci = some (⟨ci, h⟩, nodes ⟨ci, h⟩) := by
  simp [nodeAt, h]

/-- The child loop when no child finds the object: no read past the array, the flag is
unchanged, and so are the stored objects and the child-count invariant. -/
theorem removeLoop_absent (sub : Fin 8 → Option (Bool × Octree)) (nodes0 : Fin 8 → Octree)
    (hsub : ∀ i, nodes0 i ≠ null → ∃ c, sub i = some (false, c) ∧ c ≠ null ∧
      countOK c = true ∧ allObjects c = allObjects (nodes0 i)) :
    ∀ (k ci : Nat) (nodes : Fin 8 → Octree) (n : Int) (did : Bool),
      (∀ i : Fin 8, ci ≤ i.val → nodes i = nodes0 i) → LoopOK nodes n →
      ∃ nodes' n', removeLoop sub k ci nodes n did = some (did, nodes', n') ∧
        LoopOK nodes' n' ∧
        Finset.univ.sum (fun i => allObjects (nodes' i)) =
          Finset.univ.sum (fun i => allObjects (nodes i)) := by
  intro k
  induction k with
  | zero => intro ci nodes n did _ hok; exact ⟨nodes, n, rfl, hok, rfl⟩
  | succ k ih =>
    intro ci nodes n did hagree hok
    rw [removeLoop]
    by_cases h : ci < 8
    · simp only [h, dite_true]
      cases hch : nodes ⟨ci, h⟩ with
      | null =>
        simp only
        exact ih (ci + 1) nodes n did (fun i hi => hagree i (by omega)) hok
      | node a1 a2 a3 a4 a5 =>
        simp only
        have hnn : nodes0 ⟨ci, h⟩ ≠ null := by
          rw [← hagree ⟨ci, h⟩ (le_refl _), hch]; simp
        obtain ⟨c, hc, hcn, hcok, hcobj⟩ := hsub ⟨ci, h⟩ hnn
        rw [hc]
        simp only [Bool.false_eq_true, if_false]
        rw [nodeAt_lt _ h]
        simp only [Function.update_same]
        have hold : isNull (nodes ⟨ci, h⟩) = false := by rw [hch]; rfl
        have hcobj' : allObjects c = allObjects (nodes ⟨ci, h⟩) := by
          rw [hcobj, hagree ⟨ci, h⟩ (le_refl _)]
        by_cases he : isEmpty c = true
        · simp only [he, if_true, Function.update_idem]
          have hok' : LoopOK (Function.update nodes ⟨ci, h⟩ null) (n - 1) := by
            refine ⟨?_, ?_⟩
            · have := sum_update_add (fun t => if isNull t = false then (1 : Int) else 0)
                nodes ⟨ci, h⟩ null
              simp only [hold, if_true, show isNull null = true from rfl, Bool.true_eq_false,
                if_false, add_zero] at this
              rw [hok.1]
              linarith
            · intro i
              by_cases e : i = ⟨ci, h⟩
              · subst e; rw [Function.update_same]; rfl
              · rw [Function.update_noteq e]; exact hok.2 i
          obtain ⟨nodes', n', h1, h2, h3⟩ := ih (ci + 1) (Function.update nodes ⟨ci, h⟩ null)
            (n - 1) did (fun i hi => by
              rw [Function.update_noteq (by intro e; rw [e] at hi; simp at hi)]
              exact hagree i (by omega)) hok'
          refine ⟨nodes', n', h1, h2, ?_⟩
          rw [h3]
          have := sum_update_add allObjects nodes ⟨ci, h⟩ null
          rw [← hcobj', allObjects_of_isEmpty hcok he] at this
          simpa [allObjects] using this
        · simp only [he, if_false]
          have hcnull : isNull c = false := isNull_eq_false.mpr hcn
          have hok' : LoopOK (Function.update nodes ⟨ci, h⟩ c) n := by
            refine ⟨?_, ?_⟩
            · have := sum_update_add (fun t => if isNull t = false then (1 : Int) else 0)
                nodes ⟨ci, h⟩ c
              simp only [hold, if_true, hcnull] at this
              rw [hok.1]
              linarith
            · intro i
              by_cases e : i = ⟨ci, h⟩
              · subst e; rw [Function.update_same]; exact hcok
              · rw [Function.update_noteq e]; exact hok.2 i
          obtain ⟨nodes', n', h1, h2, h3⟩ := ih (ci + 1) (Function.update nodes ⟨ci, h⟩ c)
            n did (fun i hi => by
              rw [Function.update_noteq (by intro e; rw [e] at hi; simp at hi)]
              exact hagree i (by omega)) hok'
          refine ⟨nodes', n', h1, h2, ?_⟩
          rw [h3]
          have := sum_update_add allObjects nodes ⟨ci, h⟩ c
          rw [hcobj'] at this
          exact add_right_cancel this
    · simp only [h, dite_false]
      exact ⟨nodes, n, rfl, hok, rfl⟩

theorem filter_ne_of_not_mem {objs : List iObject} {o : iObject} (h : o ∉ objs) :
    objs.filter (fun x => decide (x ≠ o)) = objs := by
  rw [List.filter_eq_self]
  intro a ha
  simp only [ne_eq, decide_not, Bool.not_eq_true', decide_eq_false_iff_not]
  intro e; subst e; exact h ha

theorem Remove_node_here (midPoint : Vector) (radius : ℚ) (nodes : Fin 8 → Octree)
    (objs : List iObject) (numNodes : Int) (toRemove : iObject) (h : toRemove ∈ objs) :
    Remove (node midPoint radius nodes objs numNodes) toRemove =
      some (true, node midPoint radius nodes
        (objs.filter (fun o => decide (o ≠ toRemove))) numNodes) := by
  have hne : objs.length ≠ 0 := by
    intro e; rw [List.length_eq_zero.mp e] at h; simp at h
  have hlt : (objs.filter (fun o => decide (o ≠ toRemove))).length < objs.length := by
    apply List.length_filter_lt_length_iff_exists.mpr
    exact ⟨toRemove, h, by simp⟩
  rw [Remove]
  simp only [hne, ne_eq, not_false_eq_true, if_true]
  rw [if_neg (ne_of_gt hlt)]

theorem Remove_node_below (midPoint : Vector) (radius : ℚ) (nodes : Fin 8 → Octree)
    (objs : List iObject) (numNodes : Int) (toRemove : iObject) (h : toRemove ∉ objs)
    {r : Option (Bool × (Fin 8 → Octree) × Int)}
    (hr : removeLoop (fun i => Remove (nodes i) toRemove) 8 0 nodes numNodes false = r) :
    Remove (node midPoint radius nodes objs numNodes) toRemove =
      r.map (fun x => (x.1, node midPoint radius x.2.1 objs x.2.2)) := by
  rw [Remove]
  simp only [filter_ne_of_not_mem h, ite_self, if_true, hr]
  cases r with
  | none => rfl
  | some x => obtain ⟨d, n1, k1⟩ := x; rfl

/-- Removal of an object that is stored nowhere: it returns `false`, reads no slot past
the array, and keeps the root's fields, the stored objects and the child-count invariant. -/
theorem Remove_absent (o : iObject) :
    ∀ t : Octree, t ≠ null → countOK t = true → o ∉ allObjects t →
      ∃ t', Remove t o = some (false, t') ∧ t' ≠ null ∧ countOK t' = true ∧
        allObjects t' = allObjects t ∧ midPoint t' = midPoint t ∧ radius t' = radius t ∧
        objects t' = objects t := by
  intro t
  induction t with
  | null => intro h; exact absurd rfl h
  | node mid R nodes objs n ih =>
    intro _ hok hno
    rw [countOK_node] at hok
    have hobjs : o ∉ objs := by
      intro hm
      apply hno
      rw [allObjects_node, Multiset.mem_add]
      exact Or.inl (Multiset.mem_coe.mpr hm)
    have hsub : ∀ i, nodes i ≠ null → ∃ c, (fun i => Remove (nodes i) o) i = some (false, c) ∧
        c ≠ null ∧ countOK c = true ∧ allObjects c = allObjects (nodes i) := by
      intro i hi
      obtain ⟨c, h1, h2, h3, h4, -⟩ := ih i hi (hok.2 i)
        (fun hm => hno (Multiset.mem_of_le (allObjects_child_le _ _ _ _ _ i) hm))
      exact ⟨c, h1, h2, h3, h4⟩
    obtain ⟨nodes', n', h1, h2, h3⟩ := removeLoop_absent _ nodes hsub 8 0 nodes n false
      (fun _ _ => rfl) hok
    rw [Remove_node_below _ _ _ _ _ _ hobjs h1]
    refine ⟨_, rfl, by simp, ?_, ?_, rfl, rfl, rfl⟩
    · rw [countOK_node]; exact h2
    · rw [allObjects_node, allObjects_node, h3]

/-- C8: for a tree that satisfies the child-count invariant (every tree the class builds
does) and an object stored in no node of it, `Remove` returns `false` and the multiset of
stored objects is unchanged; the root keeps its centre, radius and local list, and the
child-count invariant still holds. -/
theorem C8_Remove_absent (midPoint0 : Vector) (radius0 : ℚ) (nodes : Fin 8 → Octree)
    (objs : List iObject) (numNodes : Int) (o : iObject)
    (hok : countOK (node midPoint0 radius0 nodes objs numNodes) = true)
    (hno : o ∉ allObjects (node midPoint0 radius0 nodes objs numNodes)) :
    ∃ t', Remove (node midPoint0 radius0 nodes objs numNodes) o = some (false, t') ∧
      allObjects t' = allObjects (node midPoint0 radius0 nodes objs numNodes) ∧
      countOK t' = true ∧ midPoint t' = midPoint0 ∧ radius t' = radius0 ∧
      objects t' = objs := by
  obtain ⟨t', h1, -, h3, h4, h5, h6, h7⟩ := Remove_absent o _ (by simp) hok hno
  exact ⟨t', h1, h4, h3, h5, h6, h7⟩

end Octree

namespace Octree

/-- Witness for C8: `objC` is not stored in `sampleTree`. -/
theorem C8_Remove_absent_witness :
    ∃ t', Remove sampleTree objC = some (false, t') ∧
      allObjects t' = allObjects sampleTree := by
  obtain ⟨t', h1, h2, -⟩ := C8_Remove_absent ⟨-1, -1, -1⟩ 4
    (Function.update noNodes 7 (node ⟨1, 1, 1⟩ 2 noNodes [objD] 0)) [objA] 1 objC
    (by decide!) (by decide!)
  exact ⟨t', h1, h2⟩

/-- C7, at the failing input: after `Add(objA)` and `Add(objD)` on the empty tree
(`MINIMUM_NODE_RADIUS = 1`), `objD` is stored once, in a child of the root, and the first
`Remove(objD)` does not return `true`: once the child has reported success the loop sets
`cornerIndex = 8` and reads `nodes[8]`. -/
theorem C7_Remove_from_child_reads_past_array :
    ∃ t, addAll 1 20 [objA, objD] empty = some t ∧
      Multiset.count objD (allObjects t) = 1 ∧ objD ∉ objects t ∧
      Remove t objD = none := by
  have h : (addAll 1 20 [objA, objD] empty).bind
      (fun t => some (decide (Multiset.count objD (allObjects t) = 1) &&
        decide (objD ∉ objects t) && (Remove t objD).isNone)) = some true := by decide!
  cases h1 : addAll 1 20 [objA, objD] empty with
  | none => rw [h1] at h; simp at h
  | some t =>
    rw [h1] at h
    simp only [Option.some_bind, Option.some.injEq, Bool.and_eq_true, decide_eq_true_eq,
      Option.isNone_iff_eq_none] at h
    exact ⟨t, rfl, h.1.1, h.1.2, h.2⟩

/-- C9, at the failing input: after `Add(objE)` and `Add(objF)` on the empty tree
(`MINIMUM_NODE_RADIUS = 1/4`) the child in slot 7 of the root holds only `objF` and has no
children; its own `Remove(objF)` reports success and leaves it with no local object and no
child, yet the parent's `Remove(objF)` does not delete it: the emptiness check is made on
`nodes[8]`, past the array. -/
theorem C9_emptied_child_not_deleted :
    ∃ t, addAll (1 / 4) 10 [objE, objF] empty = some t ∧
      (Remove (child t 7) objF).map (fun r => r.1 && hollow r.2 && isEmpty r.2) = some true ∧
      Remove t objF = none := by
  have h : (addAll (1 / 4) 10 [objE, objF] empty).bind
      (fun t => some
        (decide ((Remove (child t 7) objF).map (fun r => r.1 && hollow r.2 && isEmpty r.2)
            = some true) && (Remove t objF).isNone)) = some true := by decide!
  cases h1 : addAll (1 / 4) 10 [objE, objF] empty with
  | none => rw [h1] at h; simp at h
  | some t =>
    rw [h1] at h
    simp only [Option.some_bind, Option.some.injEq, Bool.and_eq_true, decide_eq_true_eq,
      Option.isNone_iff_eq_none] at h
    exact ⟨t, rfl, h.1, h.2⟩

/-- C10, at the failing input: the first `Add` of an object of radius 1 into the empty tree
leaves a node below the root that has no local object and no child (the copy of the
initial root filed by the first growth step). -/
theorem C10_first_Add_leaves_hollow_node :
    (AddTop 1 5 empty objA).map noHollowBelow = some false := by
  decide!

end Octree

/-! ## Further properties of the traversal and of insertion -/

namespace Octree

theorem sublist_flatMap {α β : Type} (g h : α → List β) (l : List α)
    (hs : ∀ i ∈ l, (g i).Sublist (h i)) : (l.flatMap g).Sublist (l.flatMap h) := by
  induction l with
  | nil => simp
  | cons a l ih =>
    rw [List.flatMap_cons, List.flatMap_cons]
    exact (hs a (List.mem_cons_self a l)).append
      (ih (fun i hi => hs i (List.mem_cons_of_mem a hi)))

/-- The traversal appends a sublist of the tree's objects to its output list. -/
theorem calcVisibility_append (frustum : ViewingFrustum) (contains : iObject → Bool)
    (t : Octree) : ∀ (skip : Bool) (out : List iObject),
      calcVisibility frustum contains t skip out =
          out ++ calcVisibility frustum contains t skip [] ∧
        (calcVisibility frustum contains t skip []).Sublist (flatten t) := by
  induction t with
  | null => intro skip out; simp [calcVisibility, flatten]
  | node mid R nodes objs n ih =>
    intro skip out
    cases skip with
    | true =>
      rw [calcVisibility_skip, calcVisibility_skip]
      simp
    | false =>
      rcases containsNode_cases frustum mid R with h0 | h1 | h2
      · rw [calcVisibility_node_outside _ _ _ _ _ _ _ _ h0,
          calcVisibility_node_outside _ _ _ _ _ _ _ _ h0]
        simp
      · rw [calcVisibility_node_partly _ _ _ _ _ _ _ _ h1,
          calcVisibility_node_partly _ _ _ _ _ _ _ _ h1,
          foldl_eq_append_flatMap _
            (fun i => calcVisibility frustum contains (nodes i) false []) _
            (fun i _ out => (ih i false out).1),
          foldl_eq_append_flatMap _
            (fun i => calcVisibility frustum contains (nodes i) false []) _
            (fun i _ out => (ih i false out).1)]
        refine ⟨by simp [List.append_assoc], ?_⟩
        rw [flatten, List.nil_append]
        exact (List.filter_sublist objs).append
          (sublist_flatMap _ _ _ (fun i _ => (ih i false []).2))
      · rw [calcVisibility_node_inside _ _ _ _ _ _ _ _ h2,
          calcVisibility_node_inside _ _ _ _ _ _ _ _ h2,
          foldl_eq_append_flatMap _ (fun i => flatten (nodes i)) _
            (fun i _ out => calcVisibility_skip frustum contains (nodes i) out),
          foldl_eq_append_flatMap _ (fun i => flatten (nodes i)) _
            (fun i _ out => calcVisibility_skip frustum contains (nodes i) out)]
        refine ⟨by simp [List.append_assoc], ?_⟩
        rw [flatten, List.nil_append]

/-- C12: `calcVisibility` only appends: for every tree, frustum, per-object test, skip flag
and initial output list `L`, the output list after the call is `L` followed by appended
elements, and the appended elements are objects stored in the tree (a sublist of the
tree's objects in traversal order). -/
theorem C12_calcVisibility_only_appends (frustum : ViewingFrustum)
    (contains : iObject → Bool) (t : Octree) (skip : Bool) (L : List iObject) :
    ∃ appended : List iObject,
      calcVisibility frustum contains t skip L = L ++ appended ∧
      L <+: calcVisibility frustum contains t skip L ∧
      appended.Sublist (flatten t) ∧
      ∀ o ∈ appended, o ∈ allObjects t := by
  obtain ⟨h1, h2⟩ := calcVisibility_append frustum contains t skip L
  refine ⟨calcVisibility frustum contains t skip [], h1, ?_, h2, ?_⟩
  · rw [h1]; exact List.prefix_append _ _
  · intro o ho
    rw [← mem_flatten_iff]
    exact h2.subset ho

end Octree
namespace Octree

theorem cornerBits_not (bx bY bz : Bool) :
    (cornerBits (!bx) (!bY) (!bz)).val = 7 - (cornerBits bx bY bz).val ∧
      cubeCorners (cornerBits (!bx) (!bY) (!bz)) =
        (cubeCorners (cornerBits bx bY bz)).scale (-1) := by
  cases bx <;> cases bY <;> cases bz <;> exact ⟨by decide, by decide!⟩

theorem cornerIndexGt_neg_eq (v : Vector) :
    cornerIndexGt (v.scale (-1)) =
      cornerBits (!decide (v.x ≥ 0)) (!decide (v.y ≥ 0)) (!decide (v.z ≥ 0)) := by
  have key : ∀ a : ℚ, decide (a * -1 > 0) = !decide (a ≥ 0) := by
    intro a
    by_cases h : a ≥ 0
    · have h2 : ¬ a * -1 > 0 := by intro h3; linarith
      simp [h, h2]
    · have h2 : a * -1 > 0 := by push_neg at h; linarith
      simp only [h, h2, decide_True, decide_False, Bool.not_false]
  simp only [cornerIndexGt, Vector.scale, key]

/-- The opposite-corner index of lines 334-338 is the complement of the index of lines
313-317, and its corner is the opposite corner. -/
theorem cornerIndexGt_neg (v : Vector) :
    (cornerIndexGt (v.scale (-1))).val = 7 - (cornerIndexGe v).val ∧
      cubeCorners (cornerIndexGt (v.scale (-1))) =
        (cubeCorners (cornerIndexGe v)).scale (-1) := by
  rw [cornerIndexGt_neg_eq]
  exact cornerBits_not _ _ _

end Octree

namespace Octree

/-- C15: in a root-growth step the old root is stored at child index `7 - c`, the bitwise
complement of the octant index `c` of the object relative to the old centre, for every
object position (also when coordinates coincide with the old centre's); every other slot
of the new root is `NULL`, and the slot's corner is the opposite of corner `c`. -/
theorem C15_old_root_in_opposite_octant (mid : Vector) (R : ℚ) (nodes : Fin 8 → Octree)
    (objs : List iObject) (n : Int) (p : Vector) :
    (cornerIndexGt ((p.sub mid).scale (-1))).val = 7 - (cornerIndexGe (p.sub mid)).val ∧
    (cornerIndexGt ((p.sub mid).scale (-1))).val = (cornerIndexGe (p.sub mid)).val ^^^ 7 ∧
    (∀ j : Fin 8, child (grow mid R nodes objs n p) j =
      if j.val = 7 - (cornerIndexGe (p.sub mid)).val then node mid R nodes objs n else null) ∧
    cubeCorners (cornerIndexGt ((p.sub mid).scale (-1))) =
      (cubeCorners (cornerIndexGe (p.sub mid))).scale (-1) := by
  obtain ⟨h1, h2⟩ := cornerIndexGt_neg (p.sub mid)
  refine ⟨h1, ?_, ?_, h2⟩
  · rw [h1]
    have : ∀ c : Fin 8, 7 - c.val = c.val ^^^ 7 := by decide
    exact this _
  · intro j
    simp only [grow, child]
    by_cases hj : j = cornerIndexGt ((p.sub mid).scale (-1))
    · rw [hj, Function.update_same, if_pos h1]
    · rw [Function.update_noteq hj, if_neg]
      · rfl
      · intro e
        apply hj
        apply Fin.ext
        rw [e, h1]

theorem cornerIndexGe_self (p : Vector) : cornerIndexGe (p.sub p) = 7 := by
  simp [cornerIndexGe, Vector.sub, cornerBits]

/-- C14, amended: in exact arithmetic, inserting an object of radius 0 at position `p` into
the empty tree yields a root
of radius 1 and centre `p` that holds the object in its local list, with all eight child
slots `NULL` and `numNodes = 0`, for every `MINIMUM_NODE_RADIUS`; the root does not grow. -/
theorem C14_zero_radius_promotion (m : ℚ) (o : iObject) (ho : o.getRadius = 0)
    (fuel : Nat) (hf : 2 ≤ fuel) :
    Add m fuel empty o true = some (true, node o.position 1 noNodes [o] 0) := by
  obtain ⟨k, rfl⟩ : ∃ k, fuel = k + 2 := ⟨fuel - 2, by omega⟩
  have hR : initRadius 0 o = 1 := by simp [initRadius, ho]
  have hM : initMidPoint ⟨0, 0, 0⟩ 0 o = o.position := by simp [initMidPoint]
  have hin : checkObjectWithinNode (initMidPoint ⟨0, 0, 0⟩ 0 o) (initRadius 0 o) o.position
      o.getRadius = true := by
    rw [check_iff, hR, hM]
    simp only [StrictlyInside, ho]
    refine ⟨⟨?_, ?_⟩, ⟨?_, ?_⟩, ?_, ?_⟩ <;> linarith
  have hnull : noNodes (cornerIndexGe (o.position.sub (initMidPoint ⟨0, 0, 0⟩ 0 o))) = null :=
    rfl
  unfold empty
  by_cases hs : initRadius 0 o / 2 < m
  · rw [Add_intro_small hin hnull hs, hR, hM]
    rfl
  · have hne : initRadius 0 o / 2 ≠ 0 := by rw [hR]; norm_num
    have hrej : checkObjectWithinNode
        (initMidPoint (((cubeCorners (cornerIndexGe (o.position.sub
          (initMidPoint ⟨0, 0, 0⟩ 0 o)))).scale (initRadius 0 o / 2)).add
          (initMidPoint ⟨0, 0, 0⟩ 0 o)) (initRadius 0 o / 2) o)
        (initRadius (initRadius 0 o / 2) o) o.position o.getRadius = false := by
      rw [Bool.eq_false_iff, Ne, check_iff, initRadius_of_ne o hne, initMidPoint_of_ne _ o hne,
        hM, hR, cornerIndexGe_self]
      intro h
      have := h.1.1
      simp only [Vector.add, Vector.scale, ho] at this
      have e : (cubeCorners 7).x = 1 := rfl
      rw [e] at this
      linarith
    have hc := @Add_intro_reject m k _ _ noNodes [] 0 o hrej
    rw [Add_intro_new_false hin hnull hs hc, hR, hM]
    have hu : Function.update noNodes (cornerIndexGe (o.position.sub o.position)) null =
        noNodes := by
      apply Function.update_eq_self
    rw [hu]
    rfl

/-- Witness for the amended C14: `objE`, of radius 0 at the origin, with `MINIMUM_NODE_RADIUS = 1/4`. -/
theorem C14_zero_radius_promotion_witness :
    Add (1 / 4) 2 empty objE true = some (true, node ⟨0, 0, 0⟩ 1 noNodes [objE] 0) :=
  C14_zero_radius_promotion (1 / 4) objE rfl 2 (le_refl 2)

/-- C13, amended: in exact arithmetic, for a node with `radius != 0`, the non-top-level call
`Add(object, false)` returns (`MINIMUM_NODE_RADIUS > 0`), it returns `true` iff the object's bounding box lies strictly
inside the node's cube on all three axes, and when it returns `false` the node and its
whole subtree are unchanged. -/
theorem C13_Add_nontop_accepts_iff_inside (m : ℚ) (hm : 0 < m) (mid0 : Vector) (R0 : ℚ)
    (nodes : Fin 8 → Octree) (objs : List iObject) (n : Int) (o : iObject) (hR : R0 ≠ 0) :
    (∃ N r, ∀ fuel, N ≤ fuel → Add m fuel (node mid0 R0 nodes objs n) o false = some r) ∧
    (∀ fuel b t', Add m fuel (node mid0 R0 nodes objs n) o false = some (b, t') →
      (b = true ↔ StrictlyInside mid0 R0 o) ∧
      (b = false → t' = node mid0 R0 nodes objs n)) := by
  constructor
  · obtain ⟨N, r, h⟩ := Add_descent_terminates m hm o (node mid0 R0 nodes objs n) (by simp)
    exact ⟨N, r, fun fuel hle => Add_mono_le m o hle _ _ _ h⟩
  · intro fuel b t' h
    cases fuel with
    | zero => simp [Add] at h
    | succ fuel =>
      rcases Add_node_cases h with ⟨hin, hb, -⟩ | ⟨hin, -, hb, ht⟩ | ⟨-, htop, -⟩
      · rw [check_iff, initRadius_of_ne o hR, initMidPoint_of_ne _ o hR] at hin
        subst hb
        exact ⟨⟨fun _ => hin, fun _ => rfl⟩, fun e => absurd e (by simp)⟩
      · have hnot : ¬ StrictlyInside mid0 R0 o := by
          rw [Bool.eq_false_iff, Ne, check_iff, initRadius_of_ne o hR,
            initMidPoint_of_ne _ o hR] at hin
          exact hin
        subst hb
        refine ⟨⟨fun e => absurd e (by simp), fun e => absurd e hnot⟩, fun _ => ?_⟩
        rw [ht, initRadius_of_ne o hR, initMidPoint_of_ne _ o hR]
      · exact absurd htop (by simp)

/-- Witness for the amended C13: the box of `objA` touches a face of the cube of centre `(1, 1, 1)` and
radius 2, so the node rejects it and is unchanged. -/
theorem C13_Add_nontop_accepts_iff_inside_witness :
    ¬ StrictlyInside ⟨1, 1, 1⟩ 2 objA ∧
      (Add 1 5 (node ⟨1, 1, 1⟩ 2 noNodes [objD] 0) objA false).map Prod.fst = some false := by
  have hnot : ¬ StrictlyInside ⟨1, 1, 1⟩ 2 objA := by
    intro h
    have := h.1.1
    norm_num [objA] at this
  refine ⟨hnot, ?_⟩
  cases h : Add 1 5 (node ⟨1, 1, 1⟩ 2 noNodes [objD] 0) objA false with
  | none =>
    have hs : (Add 1 5 (node ⟨1, 1, 1⟩ 2 noNodes [objD] 0) objA false).isSome = true := by
      decide!
    rw [h] at hs
    exact absurd hs (by simp)
  | some r =>
    obtain ⟨b, t'⟩ := r
    obtain ⟨h1, -⟩ := (C13_Add_nontop_accepts_iff_inside 1 (by norm_num) ⟨1, 1, 1⟩ 2 noNodes
      [objD] 0 objA (by norm_num)).2 5 b t' h
    cases b with
    | false => rfl
    | true => exact absurd (h1.mp rfl) hnot

end Octree
namespace Octree

theorem countOK_update {nodes : Fin 8 → Octree} {n : Int} (h : LoopOK nodes n) (i : Fin 8)
    {c : Octree} (hc : countOK c = true) (hsame : isNull c = isNull (nodes i)) :
    LoopOK (Function.update nodes i c) n := by
  refine ⟨?_, ?_⟩
  · have := sum_update_add (fun t => if isNull t = false then (1 : Int) else 0) nodes i c
    simp only [hsame] at this
    rw [h.1]
    linarith
  · intro j
    by_cases e : j = i
    · subst e; rw [Function.update_same]; exact hc
    · rw [Function.update_noteq e]; exact h.2 j

theorem countOK_update_new {nodes : Fin 8 → Octree} {n : Int} (h : LoopOK nodes n) (i : Fin 8)
    {c : Octree} (hc : countOK c = true) (hnew : isNull c = false)
    (hold : isNull (nodes i) = true) :
    LoopOK (Function.update nodes i c) (n + 1) := by
  refine ⟨?_, ?_⟩
  · have := sum_update_add (fun t => if isNull t = false then (1 : Int) else 0) nodes i c
    simp only [hnew, hold, if_true, Bool.true_eq_false, if_false, add_zero] at this
    rw [h.1]
    linarith
  · intro j
    by_cases e : j = i
    · subst e; rw [Function.update_same]; exact hc
    · rw [Function.update_noteq e]; exact h.2 j

theorem countOK_iff_LoopOK (midPoint : Vector) (radius : ℚ) (nodes : Fin 8 → Octree)
    (objs : List iObject) (numNodes : Int) :
    countOK (node midPoint radius nodes objs numNodes) = true ↔ LoopOK nodes numNodes :=
  countOK_node midPoint radius nodes objs numNodes

theorem LoopOK_noNodes : LoopOK noNodes 0 := by
  refine ⟨?_, fun i => rfl⟩
  simp [noNodes, isNull]

theorem countOK_mkNode (mid : Vector) (rad : ℚ) : countOK (mkNode mid rad) = true := by
  rw [mkNode, countOK_iff_LoopOK]; exact LoopOK_noNodes

theorem countOK_empty : countOK empty = true := by
  rw [empty, countOK_iff_LoopOK]; exact LoopOK_noNodes

/-- The node after `Add` is never `NULL`. -/
theorem Add_isNull_false (m : ℚ) (o : iObject) :
    ∀ (fuel : Nat) (t : Octree) (top b : Bool) (t' : Octree),
      Add m fuel t o top = some (b, t') → isNull t' = false := by
  intro fuel
  induction fuel with
  | zero => intro t top b t' h; simp [Add] at h
  | succ fuel ih =>
    intro t top b t' h
    cases t with
    | null => simp [Add] at h
    | node mid0 R0 nodes objs n =>
      rcases Add_node_cases h with ⟨-, -, hc⟩ | ⟨-, -, -, ht⟩ | ⟨-, -, hg⟩
      · rcases hc with ⟨-, -, ht⟩ | ⟨-, -, c, -, ht⟩ | ⟨-, -, c, -, ht⟩ |
          ⟨-, c, -, ht⟩ | ⟨-, c, -, ht⟩ <;> (subst ht; rfl)
      · subst ht; rfl
      · exact ih _ _ _ _ hg

/-- The child-count invariant is preserved by `Add`. -/
theorem Add_countOK (m : ℚ) (o : iObject) :
    ∀ (fuel : Nat) (t : Octree) (top b : Bool) (t' : Octree),
      countOK t = true → Add m fuel t o top = some (b, t') → countOK t' = true := by
  intro fuel
  induction fuel with
  | zero => intro t top b t' _ h; simp [Add] at h
  | succ fuel ih =>
    intro t top b t' hok h
    cases t with
    | null => simp [Add] at h
    | node mid0 R0 nodes objs n =>
      rw [countOK_iff_LoopOK] at hok
      have hres := Add_isNull_false m o
      rcases Add_node_cases h with ⟨-, -, hc⟩ | ⟨-, -, -, ht⟩ | ⟨-, -, hg⟩
      · rcases hc with ⟨-, -, ht⟩ | ⟨hnull, -, c, hc, ht⟩ | ⟨hnull, -, c, hc, ht⟩ |
          ⟨hnn, c, hc, ht⟩ | ⟨hnn, c, hc, ht⟩
        · subst ht; rw [countOK_iff_LoopOK]; exact hok
        · subst ht
          rw [countOK_iff_LoopOK]
          exact countOK_update_new hok _ (ih _ _ _ _ (countOK_mkNode _ _) hc)
            (hres _ _ _ _ _ hc) (by rw [hnull]; rfl)
        · subst ht
          rw [countOK_iff_LoopOK]
          have := countOK_update hok (cornerIndexGe (o.position.sub (initMidPoint mid0 R0 o)))
            (c := null) rfl (by rw [hnull])
          rw [show n + 1 - 1 = n by ring]
          exact this
        · subst ht
          rw [countOK_iff_LoopOK]
          exact countOK_update hok _ (ih _ _ _ _ (hok.2 _) hc)
            (by rw [hres _ _ _ _ _ hc, isNull_eq_false.mpr hnn])
        · subst ht
          rw [countOK_iff_LoopOK]
          exact countOK_update hok _ (ih _ _ _ _ (hok.2 _) hc)
            (by rw [hres _ _ _ _ _ hc, isNull_eq_false.mpr hnn])
      · subst ht; rw [countOK_iff_LoopOK]; exact hok
      · refine ih _ _ _ _ ?_ hg
        unfold grow
        simp only
        rw [countOK_iff_LoopOK]
        exact countOK_update_new LoopOK_noNodes _
          ((countOK_iff_LoopOK _ _ _ _ _).mpr hok) rfl rfl

/-- The child-count invariant holds after every sequence of public `Add` calls. -/
theorem addAll_countOK (m : ℚ) (fuel : Nat) :
    ∀ (os : List iObject) (t t' : Octree), countOK t = true →
      addAll m fuel os t = some t' → countOK t' = true := by
  intro os
  induction os with
  | nil =>
    intro t t' hok h
    simp only [addAll, Option.some.injEq] at h
    subst h
    exact hok
  | cons o os ih =>
    intro t t' hok h
    rw [addAll] at h
    cases h1 : AddTop m fuel t o with
    | none => rw [h1] at h; simp at h
    | some t1 =>
      rw [h1] at h
      exact ih t1 t' (Add_countOK m o _ _ _ _ _ hok (AddTop_eq_some.mp h1)) h

/-- C16: the child-count invariant (`numNodes` is the number of child slots that are not
`NULL`, at every node) holds for the empty tree, is preserved by `Add` (top-level or not),
and therefore holds for every tree built from the empty tree by `Add` calls. -/
theorem C16_child_count_invariant (m : ℚ) :
    countOK empty = true ∧
    (∀ (fuel : Nat) (t : Octree) (o : iObject) (top b : Bool) (t' : Octree),
      countOK t = true → Add m fuel t o top = some (b, t') → countOK t' = true) ∧
    (∀ (fuel : Nat) (os : List iObject) (t : Octree),
      addAll m fuel os empty = some t → countOK t = true) :=
  ⟨countOK_empty, fun fuel t o top b t' hok h => Add_countOK m o fuel t top b t' hok h,
    fun fuel os t h => addAll_countOK m fuel os empty t countOK_empty h⟩

/-- Witness for C16: the three-object scenario with `MINIMUM_NODE_RADIUS = 1`. -/
theorem C16_child_count_invariant_witness :
    ∃ t, addAll 1 20 threeObjects empty = some t ∧ countOK t = true := by
  obtain ⟨t, h⟩ := Option.isSome_iff_exists.mp
    (show (addAll 1 20 threeObjects empty).isSome = true by decide!)
  exact ⟨t, h, (C16_child_count_invariant 1).2.2 20 threeObjects t h⟩

end Octree

/-! ## Soundness of the classifier -/

theorem axis_mul_ge {p c R n : ℚ} (h1 : c - R ≤ p) (h2 : p ≤ c + R) :
    (c - (if n ≥ 0 then 1 else -1) * R) * n ≤ p * n := by
  by_cases hn : n ≥ 0
  · simp only [hn, if_true]
    have : 0 ≤ (p - (c - R)) * n := mul_nonneg (by linarith) hn
    nlinarith
  · simp only [hn, if_false]
    push_neg at hn
    have : 0 ≤ (c + R - p) * (-n) := mul_nonneg (by linarith) (by linarith)
    nlinarith

/-- The corner opposite to the one picked by the sign bits minimises `dot(x, n)` over the
cube. -/
theorem corner_le_dot {p pos n : Vector} {R : ℚ}
    (hx : pos.x - R ≤ p.x ∧ p.x ≤ pos.x + R) (hy : pos.y - R ≤ p.y ∧ p.y ≤ pos.y + R)
    (hz : pos.z - R ≤ p.z ∧ p.z ≤ pos.z + R) :
    dot (pos.sub ((cornerSign n).scale R)) n ≤ dot p n := by
  have ex := axis_mul_ge (n := n.x) hx.1 hx.2
  have ey := axis_mul_ge (n := n.y) hy.1 hy.2
  have ez := axis_mul_ge (n := n.z) hz.1 hz.2
  simp only [dot, Vector.sub, Vector.scale, cornerSign]
  linarith

theorem cornerSign_cases (n : Vector) :
    ((cornerSign n).x = 1 ∨ (cornerSign n).x = -1) ∧
    ((cornerSign n).y = 1 ∨ (cornerSign n).y = -1) ∧
    ((cornerSign n).z = 1 ∨ (cornerSign n).z = -1) := by
  unfold cornerSign
  refine ⟨?_, ?_, ?_⟩ <;> simp only <;> split_ifs <;> simp

namespace ViewingFrustum

/-- C17, amended: in exact arithmetic, for `radius >= 0`, if `containsNode(pos, radius)`
returns 0 (OUTSIDE) then some
plane has the whole cube strictly on its negative side, so no point of the cube is on the
positive side of all six planes; for every plane the corner selected by the sign bits is a
point of the cube that maximises `dot(x, n)` over the cube. -/
theorem C17_outside_cube_misses_frustum (f : ViewingFrustum) (pos : Vector) (radius : ℚ)
    (hR : 0 ≤ radius) (h : f.containsNode pos radius = 0) :
    (∃ i, ∀ x, InCube pos radius x → dot x (f.plane i).n + (f.plane i).d < 0) ∧
    (∀ x, InCube pos radius x → ¬ InFrustum f x) ∧
    (∀ i, InCube pos radius (((cubeCorners (cornerIndexGe (f.plane i).n)).scale radius).add pos) ∧
      ∀ x, InCube pos radius x →
        dot x (f.plane i).n ≤
          dot (((cubeCorners (cornerIndexGe (f.plane i).n)).scale radius).add pos)
            (f.plane i).n) := by
  obtain ⟨i, hi⟩ := (containsNode_spec f pos radius).1.mp h
  have hneg : ∀ x, InCube pos radius x → dot x (f.plane i).n + (f.plane i).d < 0 := by
    intro x hx
    have h2 := dot_le_corner (n := (f.plane i).n) hx.1 hx.2.1 hx.2.2
    unfold nearValue at hi
    linarith
  refine ⟨⟨i, hneg⟩, ?_, ?_⟩
  · intro x hx hall
    exact absurd (hall i) (not_le.mpr (hneg x hx))
  · intro j
    have hdot : dot (((cubeCorners (cornerIndexGe (f.plane j).n)).scale radius).add pos)
        (f.plane j).n = dot (pos.add ((cornerSign (f.plane j).n).scale radius)) (f.plane j).n := by
      rw [cubeCorners_cornerIndexGe]
      simp only [dot, Vector.add, Vector.scale]
      ring
    refine ⟨?_, ?_⟩
    · rw [cubeCorners_cornerIndexGe]
      obtain ⟨ex, ey, ez⟩ := cornerSign_cases (f.plane j).n
      simp only [InCube, Vector.add, Vector.scale]
      refine ⟨⟨?_, ?_⟩, ⟨?_, ?_⟩, ?_, ?_⟩
      · rcases ex with e | e <;> rw [e] <;> linarith
      · rcases ex with e | e <;> rw [e] <;> linarith
      · rcases ey with e | e <;> rw [e] <;> linarith
      · rcases ey with e | e <;> rw [e] <;> linarith
      · rcases ez with e | e <;> rw [e] <;> linarith
      · rcases ez with e | e <;> rw [e] <;> linarith
    · intro x hx
      rw [hdot]
      exact dot_le_corner hx.1 hx.2.1 hx.2.2

/-- Witness for the amended C17: the cube of centre `(100, 0, 0)` and radius 8 is OUTSIDE `boxFrustum`,
and its centre is not in the frustum. -/
theorem C17_outside_cube_misses_frustum_witness :
    boxFrustum.containsNode ⟨100, 0, 0⟩ 8 = 0 ∧ ¬ InFrustum boxFrustum ⟨100, 0, 0⟩ :=
  ⟨by decide!, (C17_outside_cube_misses_frustum boxFrustum ⟨100, 0, 0⟩ 8 (by norm_num)
    (by decide!)).2.1 ⟨100, 0, 0⟩ (by norm_num [InCube])⟩

/-- C18, as stated, fails: the cube of centre `(0, 0, 0)` and radius 1 is classified INSIDE
`halfFrustum` (whose first plane is `x >= 0`), in exact arithmetic and in binary32 alike,
yet its point `(-1/2, 0, 0)` is on the negative side of that plane.  In binary32 the
margin does not bound the error either: for the cube of centre `(2^25, 2^25, 0)` and
radius 1 and the plane `n = (1, -1, 0)`, `d = 1/2` both tested corners round to
`(2^25, 2^25, +-1)`, the code returns 2, and the cube's point `(2^25 - 1, 2^25 + 1, 0)`
has `dot(x, n) + d + radius = -1/2`. -/
theorem C18_inside_cube_may_leave_frustum :
    (halfFrustum.containsNode ⟨0, 0, 0⟩ 1 = 2 ∧ halfFrustum.containsNodeR fl32 ⟨0, 0, 0⟩ 1 = 2 ∧
      InCube ⟨0, 0, 0⟩ 1 ⟨-1 / 2, 0, 0⟩ ∧ ¬ InFrustum halfFrustum ⟨-1 / 2, 0, 0⟩) ∧
    ((onePlane ⟨1, -1, 0⟩ (1 / 2)).containsNodeR fl32 ⟨2 ^ 25, 2 ^ 25, 0⟩ 1 = 2 ∧
      InCube ⟨2 ^ 25, 2 ^ 25, 0⟩ 1 ⟨2 ^ 25 - 1, 2 ^ 25 + 1, 0⟩ ∧
      dot ⟨2 ^ 25 - 1, 2 ^ 25 + 1, 0⟩ ((onePlane ⟨1, -1, 0⟩ (1 / 2)).plane 0).n +
        ((onePlane ⟨1, -1, 0⟩ (1 / 2)).plane 0).d + 1 = -1 / 2) := by
  refine ⟨⟨by decide!, by decide!, by norm_num [InCube], ?_⟩,
    by decide!, by norm_num [InCube], by norm_num [onePlane, dot]⟩
  intro h
  have := h 0
  norm_num [halfFrustum, dot] at this

/-- C18, amended: in exact arithmetic, if `containsNode(pos, radius)` returns 2 (INSIDE)
then every point `x` of the cube satisfies `dot(x, n) + d + radius >= 0` for all six planes: the cube lies inside
the frustum widened by the margin `radius` that the test adds to each plane. -/
theorem C18_inside_cube_within_margin (f : ViewingFrustum) (pos : Vector) (radius : ℚ)
    (h : f.containsNode pos radius = 2) (x : Vector) (hx : InCube pos radius x) :
    ∀ i : Fin 6, 0 ≤ dot x (f.plane i).n + (f.plane i).d + radius := by
  intro i
  have hfar := ((containsNode_spec f pos radius).2.2.mp h i).2
  have h2 := corner_le_dot (n := (f.plane i).n) hx.1 hx.2.1 hx.2.2
  unfold farValue at hfar
  linarith

/-- Witness for the amended C18: the cube and point of the counterexample, at the plane
`x >= 0`. -/
theorem C18_inside_cube_within_margin_witness :
    halfFrustum.containsNode ⟨0, 0, 0⟩ 1 = 2 ∧ InCube ⟨0, 0, 0⟩ 1 ⟨-1 / 2, 0, 0⟩ ∧
      0 ≤ dot ⟨-1 / 2, 0, 0⟩ (halfFrustum.plane 0).n + (halfFrustum.plane 0).d + 1 :=
  ⟨by decide!, by norm_num [InCube],
    C18_inside_cube_within_margin halfFrustum ⟨0, 0, 0⟩ 1 (by decide!) ⟨-1 / 2, 0, 0⟩
      (by norm_num [InCube]) 0⟩

end ViewingFrustum

/-! ## Octant geometry -/

namespace Octree

theorem OctantGeometry_node (midPoint : Vector) (radius : ℚ) (nodes : Fin 8 → Octree)
    (objs : List iObject) (numNodes : Int) :
    OctantGeometry (node midPoint radius nodes objs numNodes) ↔
      ∀ k, (nodes k ≠ null →
          Octree.radius (nodes k) = radius / 2 ∧
          Octree.midPoint (nodes k) = ((cubeCorners k).scale (radius / 2)).add midPoint) ∧
        OctantGeometry (nodes k) := by
  rw [OctantGeometry]

theorem opposite_corner_mid (c mid : Vector) (R : ℚ) :
    mid = ((c.scale (-1)).scale (R * 2 / 2)).add ((c.scale R).add mid) := by
  cases c
  cases mid
  simp only [Vector.add, Vector.scale, Vector.mk.injEq]
  refine ⟨?_, ?_, ?_⟩ <;> ring

/-- A call of `Add` that is not top-level leaves centre and radius as lines 223-231 set
them. -/
theorem Add_nontop_fields (m : ℚ) (o : iObject) {fuel : Nat} {mid0 : Vector} {R0 : ℚ}
    {nodes : Fin 8 → Octree} {objs : List iObject} {n : Int} {b : Bool} {t' : Octree}
    (h : Add m fuel (node mid0 R0 nodes objs n) o false = some (b, t')) :
    radius t' = initRadius R0 o ∧ midPoint t' = initMidPoint mid0 R0 o := by
  cases fuel with
  | zero => simp [Add] at h
  | succ fuel =>
    rcases Add_node_cases h with ⟨-, -, hc⟩ | ⟨-, -, -, ht⟩ | ⟨-, htop, -⟩
    · rcases hc with ⟨-, -, ht⟩ | ⟨-, -, c, -, ht⟩ | ⟨-, -, c, -, ht⟩ |
        ⟨-, c, -, ht⟩ | ⟨-, c, -, ht⟩ <;> (subst ht; exact ⟨rfl, rfl⟩)
    · subst ht; exact ⟨rfl, rfl⟩
    · exact absurd htop (by simp)

theorem OctantGeometry_update {mid : Vector} {R : ℚ} {nodes : Fin 8 → Octree}
    (h : ∀ k, (nodes k ≠ null →
          radius (nodes k) = R / 2 ∧
          midPoint (nodes k) = ((cubeCorners k).scale (R / 2)).add mid) ∧
        OctantGeometry (nodes k)) (i : Fin 8) {c : Octree}
    (hc : OctantGeometry c)
    (hf : c ≠ null → radius c = R / 2 ∧ midPoint c = ((cubeCorners i).scale (R / 2)).add mid) :
    ∀ k, (Function.update nodes i c k ≠ null →
          radius (Function.update nodes i c k) = R / 2 ∧
          midPoint (Function.update nodes i c k) = ((cubeCorners k).scale (R / 2)).add mid) ∧
        OctantGeometry (Function.update nodes i c k) := by
  intro k
  by_cases e : k = i
  · subst e; rw [Function.update_same]; exact ⟨hf, hc⟩
  · rw [Function.update_noteq e]; exact h k

/-- The octant geometry is preserved by `Add`, on nodes whose radius is not 0 or that have
no children yet. -/
theorem Add_geometry (m : ℚ) (o : iObject) :
    ∀ (fuel : Nat) (t : Octree) (top b : Bool) (t' : Octree),
      OctantGeometry t → (radius t = 0 → ∀ i, child t i = null) →
      Add m fuel t o top = some (b, t') →
      OctantGeometry t' ∧ radius t' ≠ 0 := by
  intro fuel
  induction fuel with
  | zero => intro t top b t' _ _ h; simp [Add] at h
  | succ fuel ih =>
    intro t top b t' hG hz h
    cases t with
    | null => simp [Add] at h
    | node mid0 R0 nodes objs n =>
      rw [OctantGeometry_node] at hG
      have hne := initRadius_ne_zero R0 o
      -- the relation of the children to the initialised centre and radius
      have hG' : ∀ k, (nodes k ≠ null →
          radius (nodes k) = initRadius R0 o / 2 ∧
          midPoint (nodes k) = ((cubeCorners k).scale (initRadius R0 o / 2)).add
            (initMidPoint mid0 R0 o)) ∧ OctantGeometry (nodes k) := by
        intro k
        refine ⟨fun hk => ?_, (hG k).2⟩
        by_cases h0 : R0 = 0
        · exact absurd (hz h0 k) hk
        · rw [initRadius_of_ne o h0, initMidPoint_of_ne _ o h0]
          exact (hG k).1 hk
      have hhalf : initRadius R0 o / 2 ≠ 0 := by
        intro e; apply hne; linarith
      rcases Add_node_cases h with ⟨-, -, hc⟩ | ⟨-, -, -, ht⟩ | ⟨-, -, hg⟩
      · rcases hc with ⟨-, -, ht⟩ | ⟨hnull, -, c, hc, ht⟩ | ⟨hnull, -, c, hc, ht⟩ |
          ⟨hnn, c, hc, ht⟩ | ⟨hnn, c, hc, ht⟩
        · subst ht
          exact ⟨(OctantGeometry_node _ _ _ _ _).mpr hG', hne⟩
        · subst ht
          refine ⟨(OctantGeometry_node _ _ _ _ _).mpr (OctantGeometry_update hG' _ ?_ ?_), hne⟩
          · exact (ih _ _ _ _ (by simp [mkNode, OctantGeometry_node, noNodes, OctantGeometry])
              (by intro _ i; rfl) hc).1
          · intro _
            have := Add_nontop_fields m o hc
            rw [initRadius_of_ne o hhalf, initMidPoint_of_ne _ o hhalf] at this
            exact this
        · subst ht
          exact ⟨(OctantGeometry_node _ _ _ _ _).mpr (OctantGeometry_update hG' _
            (by simp [OctantGeometry]) (fun e => absurd rfl e)), hne⟩
        · subst ht
          obtain ⟨hrel, hsub⟩ := hG' (cornerIndexGe (o.position.sub (initMidPoint mid0 R0 o)))
          obtain ⟨hr, hmid⟩ := hrel hnn
          have hcr : radius (nodes (cornerIndexGe (o.position.sub (initMidPoint mid0 R0 o))))
              ≠ 0 := by rw [hr]; exact hhalf
          refine ⟨(OctantGeometry_node _ _ _ _ _).mpr (OctantGeometry_update hG' _ ?_ ?_), hne⟩
          · exact (ih _ _ _ _ hsub (fun e => absurd e hcr) hc).1
          · intro _
            cases hch : nodes (cornerIndexGe (o.position.sub (initMidPoint mid0 R0 o))) with
            | null => exact absurd hch hnn
            | node a1 a2 a3 a4 a5 =>
              rw [hch] at hc hr hmid hcr
              have := Add_nontop_fields m o hc
              simp only [radius, midPoint] at hr hmid hcr
              rw [initRadius_of_ne o hcr, initMidPoint_of_ne _ o hcr, hr, hmid] at this
              exact this
        · subst ht
          obtain ⟨hrel, hsub⟩ := hG' (cornerIndexGe (o.position.sub (initMidPoint mid0 R0 o)))
          obtain ⟨hr, hmid⟩ := hrel hnn
          have hcr : radius (nodes (cornerIndexGe (o.position.sub (initMidPoint mid0 R0 o))))
              ≠ 0 := by rw [hr]; exact hhalf
          refine ⟨(OctantGeometry_node _ _ _ _ _).mpr (OctantGeometry_update hG' _ ?_ ?_), hne⟩
          · exact (ih _ _ _ _ hsub (fun e => absurd e hcr) hc).1
          · intro _
            cases hch : nodes (cornerIndexGe (o.position.sub (initMidPoint mid0 R0 o))) with
            | null => exact absurd hch hnn
            | node a1 a2 a3 a4 a5 =>
              rw [hch] at hc hr hmid hcr
              have := Add_nontop_fields m o hc
              simp only [radius, midPoint] at hr hmid hcr
              rw [initRadius_of_ne o hcr, initMidPoint_of_ne _ o hcr, hr, hmid] at this
              exact this
      · subst ht
        exact ⟨(OctantGeometry_node _ _ _ _ _).mpr hG', hne⟩
      · refine ih _ _ _ _ ?_ ?_ hg
        · unfold grow
          simp only
          rw [OctantGeometry_node]
          refine OctantGeometry_update (fun k => ⟨fun e => absurd rfl e, by
            simp [noNodes, OctantGeometry]⟩) _
            ((OctantGeometry_node _ _ _ _ _).mpr hG') ?_
          intro _
          simp only [radius, midPoint]
          refine ⟨by ring, ?_⟩
          rw [(cornerIndexGt_neg _).2]
          exact opposite_corner_mid _ _ _
        · intro e
          simp only [grow, radius] at e
          exact absurd e (by intro e2; apply hne; linarith)

end Octree

namespace Octree

/-- The octant geometry holds after every sequence of public `Add` calls on a tree that has
it and whose root is initialised or childless. -/
theorem addAll_geometry (m : ℚ) (fuel : Nat) :
    ∀ (os : List iObject) (t t' : Octree), OctantGeometry t →
      (radius t = 0 → ∀ i, child t i = null) →
      addAll m fuel os t = some t' → OctantGeometry t' := by
  intro os
  induction os with
  | nil =>
    intro t t' hG _ h
    simp only [addAll, Option.some.injEq] at h
    subst h
    exact hG
  | cons o os ih =>
    intro t t' hG hz h
    rw [addAll] at h
    cases h1 : AddTop m fuel t o with
    | none => rw [h1] at h; simp at h
    | some t1 =>
      rw [h1] at h
      obtain ⟨hG1, hr1⟩ := Add_geometry m o _ _ _ _ _ hG hz (AddTop_eq_some.mp h1)
      exact ih t1 t' hG1 (fun e => absurd e hr1) h

/-- C19: in every tree obtained from the empty tree by `Add` calls (objects of radius
`>= 0`, `MINIMUM_NODE_RADIUS > 0`; the calls return), every child stored at slot `k` of a
node has half the node's radius and the centre `midPoint + cubeCorners[k] * (radius / 2)`;
in a growth step the old root re-filed under the grown root satisfies the same relation,
so its cube is exactly the octant it is filed in. -/
theorem C19_octant_geometry_invariant (m : ℚ) (hm : 0 < m) (os : List iObject)
    (hos : ∀ o ∈ os, 0 ≤ o.getRadius) :
    (∃ N t, ∀ fuel, N ≤ fuel → addAll m fuel os empty = some t) ∧
    (∀ fuel t, addAll m fuel os empty = some t → OctantGeometry t) ∧
    (∀ (mid : Vector) (R : ℚ) (nodes : Fin 8 → Octree) (objs : List iObject) (n : Int)
      (p : Vector),
      child (grow mid R nodes objs n p) (cornerIndexGt ((p.sub mid).scale (-1))) =
          node mid R nodes objs n ∧
        R = radius (grow mid R nodes objs n p) / 2 ∧
        mid = ((cubeCorners (cornerIndexGt ((p.sub mid).scale (-1)))).scale
          (radius (grow mid R nodes objs n p) / 2)).add (midPoint (grow mid R nodes objs n p))) := by
  refine ⟨addAll_terminates m hm os hos empty (by simp [empty]) (by simp [empty, radius]),
    ?_, ?_⟩
  · intro fuel t h
    refine addAll_geometry m fuel os empty t ?_ (fun _ i => rfl) h
    simp [empty, OctantGeometry_node, noNodes, OctantGeometry]
  · intro mid R nodes objs n p
    refine ⟨by simp [grow, child], by simp [grow, radius], ?_⟩
    rw [(cornerIndexGt_neg _).2]
    exact opposite_corner_mid _ _ _

/-- Witness for C19: the three-object scenario with `MINIMUM_NODE_RADIUS = 1`. -/
theorem C19_octant_geometry_invariant_witness :
    ∃ t, addAll 1 20 threeObjects empty = some t ∧ OctantGeometry t := by
  obtain ⟨t, h⟩ := Option.isSome_iff_exists.mp
    (show (addAll 1 20 threeObjects empty).isSome = true by decide!)
  exact ⟨t, h, (C19_octant_geometry_invariant 1 (by norm_num) threeObjects
    (by decide!)).2.1 20 t h⟩

end Octree

/-! ## Insert-then-remove and index safety -/

namespace Octree

/-- C11, at the failing input: after `Add(objA)` on the empty tree
(`MINIMUM_NODE_RADIUS = 1`), `Remove(objA)` returns `true` and leaves a root with no local
object, but with `numNodes = 1` and a child in slot 7: the chain of nodes filed by the two
growth steps of the first `Add` stays. -/
theorem C11_Add_Remove_leaves_children :
    (AddTop 1 5 empty objA).bind (fun t1 => (Remove t1 objA).map
      (fun r => (r.1, objects r.2, count r.2, isNull (child r.2 7), hollow (child r.2 7)))) =
      some (true, [], 1, false, false) := by
  decide!

/-- C20, at the failing input: in the tree of the three-object scenario
(`MINIMUM_NODE_RADIUS = 1`) `objB` is stored once, three levels below the root, and
`Remove(objB)` reads `nodes[8]`: the node above the leaf gets `true` from the leaf, sets
`cornerIndex = 8` and evaluates `nodes[cornerIndex]->isEmpty()`. -/
theorem C20_Remove_reads_slot_eight :
    ∃ t, addAll 1 20 threeObjects empty = some t ∧
      Multiset.count objB (allObjects t) = 1 ∧ Remove t objB = none ∧
      (Remove t objD).isSome = true := by
  have h : (addAll 1 20 threeObjects empty).bind
      (fun t => some (decide (Multiset.count objB (allObjects t) = 1) &&
        (Remove t objB).isNone && (Remove t objD).isSome)) = some true := by decide!
  cases h1 : addAll 1 20 threeObjects empty with
  | none => rw [h1] at h; simp at h
  | some t =>
    rw [h1] at h
    simp only [Option.some_bind, Option.some.injEq, Bool.and_eq_true, decide_eq_true_eq,
      Option.isNone_iff_eq_none] at h
    exact ⟨t, rfl, h.1.1, h.1.2, h.2⟩

end Octree

/-! ## Rounded arithmetic against exact arithmetic -/

namespace Octree

theorem checkObjectWithinNodeR_id (midPoint : Vector) (radius : ℚ) (p : Vector) (r : ℚ) :
    checkObjectWithinNodeR id midPoint radius p r = checkObjectWithinNode midPoint radius p r :=
  rfl

theorem initRadiusR_id (radius : ℚ) (o : iObject) : initRadiusR id radius o = initRadius radius o :=
  rfl

theorem growR_id (midPoint : Vector) (radius : ℚ) (nodes : Fin 8 → Octree)
    (objs : List iObject) (n : Int) (p : Vector) :
    growR id midPoint radius nodes objs n p = grow midPoint radius nodes objs n p :=
  rfl

theorem containsNodeR_id (f : ViewingFrustum) (pos : Vector) (radius : ℚ) :
    f.containsNodeR id pos radius = f.containsNode pos radius := by
  unfold ViewingFrustum.containsNodeR ViewingFrustum.containsNode
  have : ViewingFrustum.containsNodeStepR id f pos radius =
      ViewingFrustum.containsNodeStep f pos radius := by
    funext st i
    simp only [ViewingFrustum.containsNodeStepR, ViewingFrustum.containsNodeStep, dotR, dot,
      Vector.addR, Vector.add, Vector.scaleR, Vector.scale, id]
  rw [this]

/-- With no rounding, `AddR` is `Add`. -/
theorem AddR_id (m : ℚ) (o : iObject) :
    ∀ (fuel : Nat) (t : Octree) (top : Bool), AddR id m fuel t o top = Add m fuel t o top := by
  intro fuel
  induction fuel with
  | zero => intro t top; simp [AddR, Add]
  | succ fuel ih =>
    intro t top
    cases t with
    | null => simp [AddR, Add]
    | node mid0 R0 nodes objs n =>
      rw [AddR, Add]
      simp only [ih, checkObjectWithinNodeR_id, initRadiusR_id, growR_id, Vector.subR,
        Vector.sub, Vector.addR, Vector.add, Vector.scaleR, Vector.scale, id]

end Octree

namespace Octree

/-- With no rounding, `addAllR` is `addAll`. -/
theorem addAllR_id (m : ℚ) (fuel : Nat) :
    ∀ (os : List iObject) (t : Octree), addAllR id m fuel os t = addAll m fuel os t := by
  intro os
  induction os with
  | nil => intro t; rfl
  | cons o os ih =>
    intro t
    rw [addAllR, addAll]
    simp only [AddTopR, AddTop, AddR_id, ih]

/-- With no rounding, `calcVisibilityR` is `calcVisibility`. -/
theorem calcVisibilityR_id (f : ViewingFrustum) (contains : iObject → Bool) (t : Octree) :
    ∀ (skip : Bool) (out : List iObject),
      calcVisibilityR id f contains t skip out = calcVisibility f contains t skip out := by
  induction t with
  | null => intro skip out; simp [calcVisibilityR, calcVisibility]
  | node mid R nodes objs n ih =>
    intro skip out
    rw [calcVisibilityR, calcVisibility]
    simp only [ih, containsNodeR_id]

end Octree

/-! ## Where rounding changes the outcome -/

namespace ViewingFrustum

/-- C6, as stated, fails in binary32: for the cube of centre `(2^24, 0, 0)` and radius 1
and the plane `n = (1, 0, 0)`, `d = -16777218`, the corner coordinate `2^24 + 1` rounds to
`2^24`, so the code returns 0 although `near_i` is negative for no plane. -/
theorem C6_rounded_containsNode_differs :
    (onePlane ⟨1, 0, 0⟩ (-16777218)).containsNodeR fl32 ⟨2 ^ 24, 0, 0⟩ 1 = 0 ∧
      ¬ ∃ i, nearValue (onePlane ⟨1, 0, 0⟩ (-16777218)) ⟨2 ^ 24, 0, 0⟩ 1 i < 0 := by
  constructor
  · decide!
  · decide!

/-- C17, as stated, fails in binary32: for the cube of centre `(2^25, 2^25, 0)` and radius 1
and the plane `n = (1, -1, 0)`, `d = -3/2`, the selected corner rounds to `(2^25, 2^25, 1)`
and the code returns 0, yet the cube's corner `(2^25 + 1, 2^25 - 1, 1)` is on the positive
side of all six planes. -/
theorem C17_rounded_outside_cube_meets_frustum :
    (onePlane ⟨1, -1, 0⟩ (-3 / 2)).containsNodeR fl32 ⟨2 ^ 25, 2 ^ 25, 0⟩ 1 = 0 ∧
      InCube ⟨2 ^ 25, 2 ^ 25, 0⟩ 1 ⟨2 ^ 25 + 1, 2 ^ 25 - 1, 1⟩ ∧
      InFrustum (onePlane ⟨1, -1, 0⟩ (-3 / 2)) ⟨2 ^ 25 + 1, 2 ^ 25 - 1, 1⟩ := by
  refine ⟨by decide!, by norm_num [InCube], ?_⟩
  intro i
  fin_cases i <;> norm_num [onePlane, dot]

end ViewingFrustum

namespace Octree

/-- C13, as stated, fails in binary32: the box of `objIn` (centre `2^24 - 1`, radius 1/2)
lies strictly inside the cube of centre `(0, 0, 0)` and radius `2^24`, but line 207 rounds
`16777215.5` to `16777216`, so `Add(objIn, false)` returns `false`. -/
theorem C13_rounded_Add_rejects_inside_box :
    StrictlyInside ⟨0, 0, 0⟩ (2 ^ 24) objIn ∧
      (AddR fl32 1 5 (node ⟨0, 0, 0⟩ (2 ^ 24) noNodes [] 0) objIn false).map Prod.fst =
        some false := by
  refine ⟨?_, by decide!⟩
  norm_num [StrictlyInside, objIn]

/-- C14, as stated, fails in binary32: for the radius-0 object at `(2^24, 0, 0)` line 207
compares `2^24 >= fl(2^24 + 1) = 2^24`, so the radius-1 root does not contain its object;
it grows to radius 2 and keeps the old root as a child in slot 0. -/
theorem C14_rounded_zero_radius_root_grows :
    (AddR fl32 1 5 empty objEdge true).map
      (fun r => (r.1, radius r.2, objects r.2, count r.2, isNull (child r.2 0))) =
      some (true, 2, [objEdge], 1, false) := by
  decide!

/-- C2, as stated, fails in binary32: after `Add(objE)` and `Add(objBig)` on the empty tree
(`MINIMUM_NODE_RADIUS = 1`) line 326 has rounded the root's centre up (`2^25 - 1` to `2^25`
at the 25th growth step), the root ends with centre `x = 2^33` and radius `2^33`, and
`objE` at the origin, still stored in the tree, lies on the face `x = 0` of the root's
cube. -/
theorem C2_rounded_root_loses_first_object :
    ∃ t, addAllR fl32 1 80 [objE, objBig] empty = some t ∧
      radius t = 2 ^ 33 ∧ (midPoint t).x = 2 ^ 33 ∧
      objE ∈ allObjects t ∧ ¬ StrictlyInside (midPoint t) (radius t) objE := by
  have h : (addAllR fl32 1 80 [objE, objBig] empty).bind
      (fun t => some (decide (radius t = 2 ^ 33) && decide ((midPoint t).x = 2 ^ 33) &&
        decide (objE ∈ allObjects t) &&
        !checkObjectWithinNode (midPoint t) (radius t) objE.position objE.getRadius)) =
      some true := by decide!
  cases h1 : addAllR fl32 1 80 [objE, objBig] empty with
  | none => rw [h1] at h; simp at h
  | some t =>
    rw [h1] at h
    simp only [Option.some_bind, Option.some.injEq, Bool.and_eq_true, decide_eq_true_eq,
      Bool.not_eq_true'] at h
    refine ⟨t, rfl, h.1.1.1, h.1.1.2, h.1.2, ?_⟩
    rw [← check_iff, h.2]
    simp

/-- C5, as stated, fails in binary32: after `Add(objNeg)` and `Add(objFar)` on the empty
tree the rounded root cube is `x ∈ [0, 2^27]`; for the frustum whose first plane is
`n = (-2^30, 0, 0)`, `d = -2^28` the root is classified OUTSIDE and nothing is appended,
although `objNeg`, at `x = -1/2`, passes the point test. -/
theorem C5_rounded_pruning_drops_object :
    ∃ t, addAllR fl32 1 60 [objNeg, objFar] empty = some t ∧
      (calcVisibilityR fl32 (onePlane ⟨-(2 ^ 30), 0, 0⟩ (-(2 ^ 28)))
        (onePlane ⟨-(2 ^ 30), 0, 0⟩ (-(2 ^ 28))).containsObject t false []) = [] ∧
      [objNeg, objFar].filter (onePlane ⟨-(2 ^ 30), 0, 0⟩ (-(2 ^ 28))).containsObject =
        [objNeg] := by
  have h : (addAllR fl32 1 60 [objNeg, objFar] empty).bind
      (fun t => some (decide ((calcVisibilityR fl32 (onePlane ⟨-(2 ^ 30), 0, 0⟩ (-(2 ^ 28)))
        (onePlane ⟨-(2 ^ 30), 0, 0⟩ (-(2 ^ 28))).containsObject t false []) = []))) =
      some true := by decide!
  cases h1 : addAllR fl32 1 60 [objNeg, objFar] empty with
  | none => rw [h1] at h; simp at h
  | some t =>
    rw [h1] at h
    simp only [Option.some_bind, Option.some.injEq, decide_eq_true_eq] at h
    exact ⟨t, rfl, h, by decide!⟩

end Octree

end Octree2011
